import Mathlib

/-!
Shallow embedding of the voice-calendar-agent repository
(`app/utils/nlp.py` and `app/routers/audio.py`) and proofs about it.

Python strings are modelled as `List Char` internally (`String` at the API
boundary); regular expressions from the source are translated into dedicated
scanning functions with Python `re` semantics (leftmost match, ordered
alternation, greedy quantifiers with backtracking where it matters).
External collaborators (the OpenAI extraction call, `dateparser`, the
Google-calendar service, the wall clock) are parameters of the embedding.
-/

namespace VCA

/-! ### Character classes and basic string helpers -/

/-- Python `\w` on ASCII input: letters, digits, underscore. -/
def isWordChar (c : Char) : Bool :=
  c.isAlphanum || c == '_'

/-- Python `\s` on ASCII input. -/
def isPySpace (c : Char) : Bool :=
  c == ' ' || c == '\t' || c == '\n' || c == '\r' || c == '\x0b' || c == '\x0c'

/-- Word-character test for an optional character (`none` = string edge,
which counts as a non-word position for `\b`). -/
def isWordOpt : Option Char → Bool
  | none => false
  | some c => isWordChar c

/-- Python word boundary `\b` between a previous character and a next one. -/
def wb (prev next : Option Char) : Bool :=
  isWordOpt prev != isWordOpt next

/-- Python `str.lower()` restricted to ASCII. -/
def pyLower (s : String) : String :=
  String.mk (s.toList.map Char.toLower)

/-- Python `str.strip()`. -/
def pyStrip (s : String) : String :=
  String.mk ((s.toList.dropWhile isPySpace).reverse.dropWhile isPySpace |>.reverse)

/-- `startsWithL p s`: `p` is a prefix of `s`. -/
def startsWithL : List Char → List Char → Bool
  | [], _ => true
  | _ :: _, [] => false
  | p :: ps, c :: cs => p == c && startsWithL ps cs

/-- `infixL p s`: `p` occurs as a contiguous sublist of `s`. -/
def infixL (p : List Char) : List Char → Bool
  | [] => startsWithL p []
  | c :: cs => startsWithL p (c :: cs) || infixL p cs

/-- Python substring test `needle in hay`. -/
def containsSub (needle hay : String) : Bool :=
  infixL needle.toList hay.toList

/-- Python truthiness of an optional string (`None` and `""` are falsy). -/
def truthy : Option String → Bool
  | none => false
  | some s => !s.isEmpty

/-- Python `x or default` on an optional string. -/
def pyOrStr (x : Option String) (d : String) : String :=
  match x with
  | none => d
  | some s => if s.isEmpty then d else s

/-- `f"{n:02d}"` for the values appearing in this program. -/
def pad2 (n : Nat) : String :=
  if n < 10 then "0" ++ Nat.repr n else Nat.repr n

/-- `f"{n:04d}"` (ISO year). -/
def pad4 (n : Nat) : String :=
  if n < 10 then "000" ++ Nat.repr n
  else if n < 100 then "00" ++ Nat.repr n
  else if n < 1000 then "0" ++ Nat.repr n
  else Nat.repr n

/-! ### `nlp.py`: small helpers (`is_affirmative`, `is_negative`, `is_filler`) -/

/-- Keyword list of `is_affirmative` (nlp.py lines 20–23). -/
def affirmativeWords : List String :=
  ["yes", "yeah", "yep", "correct", "that\x27s right", "confirm",
   "please do", "go ahead", "sure", "yup"]

/-- Keyword list of `is_negative` (nlp.py line 27). -/
def negativeWords : List String :=
  ["no", "nope", "nah", "incorrect", "that\x27s wrong", "don\x27t", "do not"]

/-- `is_affirmative` (nlp.py): substring membership of any keyword in the
lower-cased, stripped text. -/
def is_affirmative (text : String) : Bool :=
  let t := pyStrip (pyLower text)
  affirmativeWords.any (fun w => containsSub w t)

/-- `is_negative` (nlp.py). -/
def is_negative (text : String) : Bool :=
  let t := pyStrip (pyLower text)
  negativeWords.any (fun w => containsSub w t)

/-- `FILLERS` (nlp.py lines 11–14). -/
def FILLERS : List String :=
  ["ok", "okay", "okay thanks", "thanks", "thank you", "yep", "yeah", "alright",
   "hmm", "mm", "mmm", "please continue", "go on"]

/-- `is_filler` (nlp.py): exact membership after lower/strip. -/
def is_filler (text : String) : Bool :=
  FILLERS.contains (pyStrip (pyLower text))

/-! ### Regex-substitution scanner

`re.sub` semantics: scan left to right over the original string; at each
position attempt a (here always non-empty) match; on success emit the
replacement and continue after the matched text, otherwise emit the current
character and move one position. Word boundaries are judged against the
original characters, which the scanner tracks via the previous original
character. Fuel equal to the string length suffices because every step
consumes at least one original character. -/

def subScan (f : Option Char → List Char → Option (List Char × Char × List Char)) :
    Nat → Option Char → List Char → List Char
  | 0, _, s => s
  | _ + 1, _, [] => []
  | fuel + 1, prev, c :: cs =>
    match f prev (c :: cs) with
    | some (rep, lastM, rest) => rep ++ subScan f fuel (some lastM) rest
    | none => c :: subScan f fuel (some c) cs

/-- Run one substitution pass over a whole string. -/
def runSub (f : Option Char → List Char → Option (List Char × Char × List Char))
    (s : List Char) : List Char :=
  subScan f s.length none s

/-- `p` is a prefix of `s`: return the remainder. -/
def stripPrefixL : List Char → List Char → Option (List Char)
  | [], s => some s
  | _ :: _, [] => none
  | p :: ps, c :: cs => if p == c then stripPrefixL ps cs else none

/-- Match a sequence of literal words separated by whitespace gaps
(`true` = `\s+`, `false` = `\s*`); gaps are forced (no useful backtracking:
every word starts with a non-space character). Returns the last matched
character and the remainder. -/
def matchPieces : List Char → Char → List (Bool × List Char) → Option (Char × List Char)
  | s, last, [] => some (last, s)
  | s, last, (needGap, w) :: ps =>
    let ws := s.takeWhile isPySpace
    let s' := s.drop ws.length
    if needGap && ws.isEmpty then none
    else
      match stripPrefixL w s' with
      | some r => matchPieces r (w.getLastD last) ps
      | none => none

def piece (g : Bool) (w : String) : Bool × List Char := (g, w.toList)

/-- The lead-in alternatives of nlp.py line 50, in source order:
`my\s+email\s+is | email\s+is | email\s*address\s*is | the\s+email\s+is
 | it\s+is | it's`. -/
def leadInAlts : List (List (Bool × List Char)) :=
  [[piece false "my", piece true "email", piece true "is"],
   [piece false "email", piece true "is"],
   [piece false "email", piece false "address", piece false "is"],
   [piece false "the", piece true "email", piece true "is"],
   [piece false "it", piece true "is"],
   [piece false "it\x27s"]]

/-- Matcher for `\b(<lead-ins>)\b[:,\.\s]*` replaced by a single space. -/
def leadInF (prev : Option Char) (s : List Char) :
    Option (List Char × Char × List Char) :=
  if wb prev s.head? then
    leadInAlts.findSome? fun alt =>
      match matchPieces s ' ' alt with
      | some (last, rest) =>
        if wb (some last) rest.head? then
          let tail := rest.takeWhile fun c =>
            c == ':' || c == ',' || c == '.' || isPySpace c
          some ([' '], tail.getLastD last, rest.drop tail.length)
        else none
      | none => none
  else none

/-- Matcher for `\b<word>\b` replaced by `rep`. -/
def wordSubF (w rep : String) (prev : Option Char) (s : List Char) :
    Option (List Char × Char × List Char) :=
  if wb prev s.head? then
    match stripPrefixL w.toList s with
    | some rest =>
      if wb (w.toList.getLastD ' ') rest.head? then
        some (rep.toList, w.toList.getLastD ' ', rest)
      else none
    | none => none
  else none

/-- Matcher for `\s*<sym>\s*` replaced by `<sym>` (nlp.py lines 61–62). -/
def tightenF (sym : Char) (_prev : Option Char) (s : List Char) :
    Option (List Char × Char × List Char) :=
  let ws := s.takeWhile isPySpace
  match s.drop ws.length with
  | c :: rest =>
    if c == sym then
      let ws2 := rest.takeWhile isPySpace
      some ([sym], ws2.getLastD sym, rest.drop ws2.length)
    else none
  | [] => none

/-- Matcher for `(?<=<sym>)\s+` deleted (nlp.py lines 65 and 69). -/
def wsAfterF (sym : Char) (prev : Option Char) (s : List Char) :
    Option (List Char × Char × List Char) :=
  if prev == some sym then
    let ws := s.takeWhile isPySpace
    if ws.isEmpty then none
    else some ([], ws.getLastD ' ', s.drop ws.length)
  else none

/-- Matcher for `\s+(?=\.)` deleted (lookahead not consumed, nlp.py line 68). -/
def wsBeforeDotF (_prev : Option Char) (s : List Char) :
    Option (List Char × Char × List Char) :=
  let ws := s.takeWhile isPySpace
  if ws.isEmpty then none
  else
    match s.drop ws.length with
    | '.' :: _ => some ([], ws.getLastD ' ', s.drop ws.length)
    | _ => none

/-- `_normalize_spoken_tokens` (nlp.py lines 42–71): lower-case, strip
lead-ins, map spoken tokens to symbols, tighten whitespace around `@`/`.`. -/
def _normalize_spoken_tokens (text : String) : String :=
  let t := (pyLower text).toList
  let t := runSub leadInF t
  let t := runSub (wordSubF "underscore" "_") t
  let t := runSub (wordSubF "hyphen" "-") t
  let t := runSub (wordSubF "dash" "-") t
  let t := runSub (wordSubF "period" ".") t
  let t := runSub (wordSubF "dot" ".") t
  let t := runSub (wordSubF "at" "@") t
  let t := runSub (tightenF '@') t
  let t := runSub (tightenF '.') t
  let t := runSub (wsAfterF '@') t
  let t := runSub wsBeforeDotF t
  let t := runSub (wsAfterF '.') t
  pyStrip (String.mk t)

/-! ### `EMAIL_REGEX` / `DOMAIN_REGEX` and `_extract_email` -/

/-- `[a-z0-9._%+\-]` with `re.I`. -/
def isLocalChar (c : Char) : Bool :=
  c.isAlpha || c.isDigit || c == '.' || c == '_' || c == '%' || c == '+' || c == '-'

/-- `[a-z0-9.\-]` with `re.I` (email domain body). -/
def isDomChar (c : Char) : Bool :=
  c.isAlpha || c.isDigit || c == '.' || c == '-'

/-- `[a-z0-9\-]` with `re.I` (`DOMAIN_REGEX` label). -/
def isDomLabelChar (c : Char) : Bool :=
  c.isAlpha || c.isDigit || c == '-'

/-- Candidate splits of a leading `cls+` run, longest first (Python greedy
backtracking order); the empty split is excluded (`+` needs one character). -/
def classSplits (cls : Char → Bool) (s : List Char) : List (List Char × List Char) :=
  let n := (s.takeWhile cls).length
  (List.range n).map fun i => (s.take (n - i), s.drop (n - i))

/-- Candidate splits of a leading `[a-z]{2,}` run, longest first. -/
def alphaSplits2 (s : List Char) : List (List Char × List Char) :=
  let n := (s.takeWhile Char.isAlpha).length
  if n < 2 then []
  else (List.range (n - 1)).map fun i => (s.take (n - i), s.drop (n - i))

/-- Tail of `EMAIL_REGEX` after `@`:
`[a-z0-9.\-]+\.[a-z]{2,}(?:\.[a-z]{2,})?\b`, with Python backtracking order
(greedy body, then greedy TLD, optional group tried present-first). -/
def emailDomainTail (s : List Char) : Option (List Char × List Char) :=
  (classSplits isDomChar s).findSome? fun p =>
    match p.2 with
    | '.' :: r2 =>
      (alphaSplits2 r2).findSome? fun a =>
        let withOpt :=
          match a.2 with
          | '.' :: r4 =>
            (alphaSplits2 r4).findSome? fun b =>
              if wb (b.1.getLastD 'x') b.2.head? then
                some (p.1 ++ '.' :: a.1 ++ '.' :: b.1, b.2)
              else none
          | _ => none
        match withOpt with
        | some res => some res
        | none =>
          if wb (a.1.getLastD 'x') a.2.head? then some (p.1 ++ '.' :: a.1, a.2)
          else none
    | _ => none

/-- One attempt of `EMAIL_REGEX` at the current position:
`\b([a-z0-9._%+\-]+@<domain tail>)\b`. The local part is a maximal class run
(no useful backtracking: `@` is not in the class). -/
def emailMatchAt (prev : Option Char) (s : List Char) :
    Option (List Char × Char × List Char) :=
  if wb prev s.head? then
    let loc := s.takeWhile isLocalChar
    if loc.isEmpty then none
    else
      match s.drop loc.length with
      | '@' :: r1 =>
        match emailDomainTail r1 with
        | some (dom, rest) =>
          let m := loc ++ '@' :: dom
          some (m, m.getLastD 'x', rest)
        | none => none
      | _ => none
  else none

/-- `re.findall` scan: non-overlapping leftmost matches. -/
def findAllScan (f : Option Char → List Char → Option (List Char × Char × List Char)) :
    Nat → Option Char → List Char → List (List Char)
  | 0, _, _ => []
  | _ + 1, _, [] => []
  | fuel + 1, prev, c :: cs =>
    match f prev (c :: cs) with
    | some (m, lastM, rest) => m :: findAllScan f fuel (some lastM) rest
    | none => findAllScan f fuel (some c) cs

/-- Greedy `(?:\.[a-z0-9\-]+)*` (the repeated group of `DOMAIN_REGEX`). -/
def domainGroups : Nat → List Char → List Char × List Char
  | 0, s => ([], s)
  | fuel + 1, s =>
    match s with
    | '.' :: r =>
      let run := r.takeWhile isDomLabelChar
      if run.isEmpty then ([], s)
      else
        let res := domainGroups fuel (r.drop run.length)
        ('.' :: (run ++ res.1), res.2)
    | _ => ([], s)

/-- One attempt of `DOMAIN_REGEX` `([a-z0-9\-]+(?:\.[a-z0-9\-]+)+)` at the
current position; the label run is maximal (shortening it puts a label
character where `\.` is required, so backtracking cannot succeed). -/
def domainMatchAt (s : List Char) : Option (List Char) :=
  let p1 := s.takeWhile isDomLabelChar
  if p1.isEmpty then none
  else
    let gs := domainGroups s.length (s.drop p1.length)
    if gs.1.isEmpty then none else some (p1 ++ gs.1)

/-- `DOMAIN_REGEX.search`: leftmost match, returning the text to its left
(`t[:m.start(1)]`) and the matched domain. -/
def domainSearchAux : Nat → List Char → List Char → Option (List Char × List Char)
  | 0, _, _ => none
  | _ + 1, _, [] => none
  | fuel + 1, accRev, c :: cs =>
    match domainMatchAt (c :: cs) with
    | some dom => some (accRev.reverse, dom)
    | none => domainSearchAux fuel (c :: accRev) cs

/-- One attempt of `([a-z0-9._%+\-]{1,64})\s*at\s*$` at the current position
(greedy group, longest first; the `\s*` gaps are forced). -/
def m2At (s : List Char) : Option (List Char) :=
  let n := min (s.takeWhile isLocalChar).length 64
  (List.range n).findSome? fun i =>
    let k := n - i
    let r1 := s.drop k
    let r2 := r1.drop (r1.takeWhile isPySpace).length
    match r2 with
    | 'a' :: 't' :: r3 =>
      if (r3.dropWhile isPySpace).isEmpty then some (s.take k) else none
    | _ => none

/-- `re.search` scan for the pattern above. -/
def m2SearchAux : Nat → List Char → Option (List Char)
  | 0, _ => none
  | _ + 1, [] => none
  | fuel + 1, c :: cs =>
    match m2At (c :: cs) with
    | some loc => some loc
    | none => m2SearchAux fuel cs

/-- `_extract_email` (nlp.py lines 73–99): normalize, take the last standard
email match; otherwise recover `local at domain` to the left of a
`DOMAIN_REGEX` match. -/
def _extract_email (user_text : String) : Option String :=
  let t := (_normalize_spoken_tokens user_text).toList
  let candidates := findAllScan emailMatchAt t.length none t
  match candidates.getLast? with
  | some m => some (String.mk m)
  | none =>
    match domainSearchAux t.length [] t with
    | some lr =>
      match m2SearchAux (lr.1.length + 1) lr.1 with
      | some loc => some (String.mk (loc ++ '@' :: lr.2))
      | none => none
    | none => none

/-! ### Datetime model (`datetime.date` / `datetime.datetime` at minute
granularity, proleptic Gregorian calendar as in Python) -/

structure PyDT where
  year : Nat
  month : Nat
  day : Nat
  hour : Nat
  minute : Nat
deriving DecidableEq, Repr

def isLeap (y : Nat) : Bool :=
  y % 4 == 0 && (y % 100 != 0 || y % 400 == 0)

def daysInMonth (y m : Nat) : Nat :=
  if m == 2 then (if isLeap y then 29 else 28)
  else if m == 4 || m == 6 || m == 9 || m == 11 then 30
  else 31

/-- Days in the months strictly before month `m`, non-leap year. -/
def monthOffset (m : Nat) : Nat :=
  if m ≤ 1 then 0 else if m = 2 then 31 else if m = 3 then 59
  else if m = 4 then 90 else if m = 5 then 120 else if m = 6 then 151
  else if m = 7 then 181 else if m = 8 then 212 else if m = 9 then 243
  else if m = 10 then 273 else if m = 11 then 304 else 334

/-- Days before January 1 of year `y` (so `toDays ⟨1,1,1,_,_⟩ = 1`,
matching Python's `date.toordinal`). -/
def daysBeforeYear (y : Nat) : Nat :=
  365 * (y - 1) + (y - 1) / 4 - (y - 1) / 100 + (y - 1) / 400

/-- Python `date.toordinal()`. -/
def toDays (dt : PyDT) : Nat :=
  daysBeforeYear dt.year + monthOffset dt.month +
    (if 2 < dt.month && isLeap dt.year then 1 else 0) + dt.day

/-- Python `date.weekday()` (Monday = 0) of an ordinal. -/
def pyWeekday (d : Nat) : Nat := (d + 6) % 7

/-- Minutes since the epoch; datetimes compare and subtract through this. -/
def toMin (dt : PyDT) : Nat :=
  toDays dt * 1440 + dt.hour * 60 + dt.minute

def validDate (dt : PyDT) : Bool :=
  1 ≤ dt.year && 1 ≤ dt.month && dt.month ≤ 12 &&
    1 ≤ dt.day && dt.day ≤ daysInMonth dt.year dt.month &&
    dt.hour ≤ 23 && dt.minute ≤ 59

/-- The calendar successor of a date (time of day preserved). -/
def nextDay (dt : PyDT) : PyDT :=
  if dt.day < daysInMonth dt.year dt.month then {dt with day := dt.day + 1}
  else if dt.month < 12 then {dt with month := dt.month + 1, day := 1}
  else {dt with year := dt.year + 1, month := 1, day := 1}

/-- `dt + timedelta(days=n)`. -/
def addDays : Nat → PyDT → PyDT
  | 0, dt => dt
  | n + 1, dt => addDays n (nextDay dt)

/-- `dt + timedelta(minutes=30)`. -/
def addMinutes30 (dt : PyDT) : PyDT :=
  let t := dt.hour * 60 + dt.minute + 30
  if t < 1440 then {dt with hour := t / 60, minute := t % 60}
  else
    let d := nextDay dt
    {d with hour := (t - 1440) / 60, minute := (t - 1440) % 60}

/-- `dt.replace(year=dt.year + 1)`: raises `ValueError` when the shifted
date does not exist (February 29 of a year whose successor is not leap). -/
def replaceYearPlus1 (dt : PyDT) : Except String PyDT :=
  if dt.day ≤ daysInMonth (dt.year + 1) dt.month then
    .ok {dt with year := dt.year + 1}
  else .error "day is out of range for month"

/-- `_ensure_future` (nlp.py lines 199–207). `now` is the wall clock
(`_now()`), a parameter of the embedding. -/
def _ensure_future (now dt : PyDT) : Except String PyDT :=
  if toMin now < toMin dt then .ok dt
  else if (toMin now - toMin dt) / 1440 < 7 then .ok (addDays 7 dt)
  else replaceYearPlus1 dt

/-- `f"{n}"` for a `Nat`. -/
def natStr (n : Nat) : String := Nat.repr n

/-- `date.isoformat()`. -/
def isoDate (dt : PyDT) : String :=
  pad4 dt.year ++ "-" ++ pad2 dt.month ++ "-" ++ pad2 dt.day

def digitVal (c : Char) : Nat := c.toNat - 48

/-- `datetime.fromisoformat(f"{date_str}T{time_str}:00")` for the canonical
`YYYY-MM-DD` / `HH:MM` shapes; anything else raises `ValueError`. -/
def fromisoformatDT (ds ts : String) : Except String PyDT :=
  match ds.toList, ts.toList with
  | [y1, y2, y3, y4, '-', m1, m2, '-', d1, d2], [h1, h2, ':', n1, n2] =>
    if [y1, y2, y3, y4, m1, m2, d1, d2, h1, h2, n1, n2].all Char.isDigit then
      let dt : PyDT :=
        { year := ((digitVal y1 * 10 + digitVal y2) * 10 + digitVal y3) * 10 + digitVal y4
          month := digitVal m1 * 10 + digitVal m2
          day := digitVal d1 * 10 + digitVal d2
          hour := digitVal h1 * 10 + digitVal h2
          minute := digitVal n1 * 10 + digitVal n2 }
      if validDate dt then .ok dt else .error "Invalid isoformat string"
    else .error "Invalid isoformat string"
  | _, _ => .error "Invalid isoformat string"

/-! ### Generic `re.search` scanner -/

/-- `re.search`: leftmost position whose attempt succeeds. All patterns fed
to this scanner require at least one character, so the end position fails. -/
def searchScan (f : Option Char → List Char → Option α) :
    Nat → Option Char → List Char → Option α
  | 0, _, _ => none
  | _ + 1, _, [] => none
  | fuel + 1, prev, c :: cs =>
    match f prev (c :: cs) with
    | some r => some r
    | none => searchScan f fuel (some c) cs

/-! ### Relative weekdays (`_next_weekday`, `_compute_relative_weekday`) -/

/-- `WEEKDAY_TO_IDX` order (also the regex alternation order). -/
def weekdayNames : List String :=
  ["monday", "tuesday", "wednesday", "thursday", "friday", "saturday", "sunday"]

def wdAlts : List (List Char × Nat) :=
  (weekdayNames.enum.map fun p => (p.2.toList, p.1))

def modAlts : List (List Char × Nat) :=
  [("this".toList, 0), ("next".toList, 1), ("coming".toList, 2)]

/-- Ordered literal alternation (the alternatives are never prefixes of one
another, so at most one can match at a given position). -/
def stripWordOf (alts : List (List Char × Nat)) (s : List Char) :
    Option (Nat × List Char) :=
  alts.findSome? fun a => (stripPrefixL a.1 s).map fun r => (a.2, r)

/-- `_next_weekday` (nlp.py lines 129–133); `base` is a date. -/
def _next_weekday (base : PyDT) (targetIdx : Nat) (includeToday : Bool) : PyDT :=
  let delta := (((targetIdx : Int) - (pyWeekday (toDays base) : Int)) % 7).toNat
  let delta := if delta == 0 && !includeToday then 7 else delta
  addDays delta base

/-- Attempt of `\b(this|next|coming)\s+(monday|…|sunday)\b` at a position
(every weekday name ends in `y`, used for the trailing `\b`). -/
def relWeekdayAt (prev : Option Char) (s : List Char) : Option (Nat × Nat) :=
  if wb prev s.head? then
    match stripWordOf modAlts s with
    | some (md, r1) =>
      let ws := r1.takeWhile isPySpace
      if ws.isEmpty then none
      else
        match stripWordOf wdAlts (r1.drop ws.length) with
        | some (idx, r2) => if wb (some 'y') r2.head? then some (md, idx) else none
        | none => none
    | none => none
  else none

/-- Attempt of `\b(monday|…|sunday)\b` at a position. -/
def plainWeekdayAt (prev : Option Char) (s : List Char) : Option Nat :=
  if wb prev s.head? then
    match stripWordOf wdAlts s with
    | some (idx, r) => if wb (some 'y') r.head? then some idx else none
    | none => none
  else none

/-- `_compute_relative_weekday` (nlp.py lines 135–170). `base` stands for
`_today_00().date()`, i.e. the clock parameter with the time zeroed. -/
def _compute_relative_weekday (text : String) (base : PyDT) : Option PyDT :=
  let t := (pyLower text).toList
  match searchScan relWeekdayAt t.length none t with
  | some (md, idx) =>
    if md == 0 then
      let d := _next_weekday base idx true
      -- defensive guard of the source (`if d < base`), never taken
      if toDays d < toDays base then some (addDays 7 d) else some d
    else some (_next_weekday base idx false)
  | none =>
    match searchScan plainWeekdayAt t.length none t with
    | some idx => some (_next_weekday base idx true)
    | none =>
      if containsSub "tomorrow" (String.mk t) then some (addDays 1 base)
      else if containsSub "today" (String.mk t) then some base
      else none

/-! ### `_parse_time_component` -/

/-- Candidates for `([0-1]?\d|2[0-3])` in Python attempt order:
`[0-1]` present, `[0-1]?` empty, then the `2[0-3]` alternative. -/
def hourAlts1 : List Char → List (Nat × List Char)
  | c1 :: c2 :: r =>
    (if (c1 == '0' || c1 == '1') && c2.isDigit then
      [(digitVal c1 * 10 + digitVal c2, r)] else []) ++
    (if c1.isDigit then [(digitVal c1, c2 :: r)] else []) ++
    (if c1 == '2' && ('0' ≤ c2 && c2 ≤ '3') then [(20 + digitVal c2, r)] else [])
  | [c1] => if c1.isDigit then [(digitVal c1, ([] : List Char))] else []
  | [] => []

/-- Candidates for `([0-1]?\d)`: two digits first, then one. -/
def hourAlts2 : List Char → List (Nat × List Char)
  | c1 :: c2 :: r =>
    (if (c1 == '0' || c1 == '1') && c2.isDigit then
      [(digitVal c1 * 10 + digitVal c2, r)] else []) ++
    (if c1.isDigit then [(digitVal c1, c2 :: r)] else [])
  | [c1] => if c1.isDigit then [(digitVal c1, ([] : List Char))] else []
  | [] => []

/-- `(am|pm)` followed by `\b`; `false` = am, `true` = pm. -/
def apCheck : List Char → Option Bool
  | 'a' :: 'm' :: r => if wb (some 'm') r.head? then some false else none
  | 'p' :: 'm' :: r => if wb (some 'm') r.head? then some true else none
  | _ => none

/-- Tail `\s*(am|pm)?\b` after the minutes: the greedy `\s*` is tried from
its maximal length `k` downwards; at each length first the group, then the
empty group plus `\b`. The previous character is a space for `k > 0`
(spaces are never word characters) and the last minutes digit for `k = 0`. -/
def apTailLoop (r4 : List Char) (lastD : Char) : Nat → Option (Option Bool)
  | 0 =>
    match apCheck r4 with
    | some ap => some (some ap)
    | none => if wb (some lastD) r4.head? then some none else none
  | k + 1 =>
    let restk := r4.drop (k + 1)
    match apCheck restk with
    | some ap => some (some ap)
    | none =>
      if wb (some ' ') restk.head? then some none
      else apTailLoop r4 lastD k

/-- Continuation of the first time pattern after the hour group:
`\s*:\s*([0-5]\d)\s*(am|pm)?\b`. -/
def time1Tail (hh : Nat) (rest : List Char) : Option (Nat × Nat × Option Bool) :=
  match rest.drop (rest.takeWhile isPySpace).length with
  | ':' :: r2 =>
    match r2.drop (r2.takeWhile isPySpace).length with
    | m1 :: m2 :: r4 =>
      if ('0' ≤ m1 && m1 ≤ '5') && m2.isDigit then
        match apTailLoop r4 m2 (r4.takeWhile isPySpace).length with
        | some ap => some (hh, digitVal m1 * 10 + digitVal m2, ap)
        | none => none
      else none
    | _ => none
  | _ => none

/-- Attempt of `\b([0-1]?\d|2[0-3])\s*:\s*([0-5]\d)\s*(am|pm)?\b`
(nlp.py line 182). -/
def time1At (prev : Option Char) (s : List Char) :
    Option (Nat × Nat × Option Bool) :=
  if wb prev s.head? then
    (hourAlts1 s).findSome? fun hc => time1Tail hc.1 hc.2
  else none

/-- Attempt of `\b([0-1]?\d)\s*(am|pm)\b` (nlp.py line 190); here `am|pm`
is mandatory, so only the maximal `\s*` can precede it. -/
def time2At (prev : Option Char) (s : List Char) : Option (Nat × Bool) :=
  if wb prev s.head? then
    (hourAlts2 s).findSome? fun hc =>
      match apCheck (hc.2.drop (hc.2.takeWhile isPySpace).length) with
      | some ap => some (hc.1, ap)
      | none => none
  else none

/-- 12-hour to 24-hour step of the source: `if hh == 12: hh = 0`,
then `if pm: hh += 12`. -/
def convertAp (hh : Nat) (isPm : Bool) : Nat :=
  let h := if hh == 12 then 0 else hh
  if isPm then h + 12 else h

/-- `_parse_time_component` (nlp.py lines 172–197). -/
def _parse_time_component (text : String) : Option String :=
  let t := pyLower text
  if containsSub "noon" t then some "12:00"
  else if containsSub "midnight" t then some "00:00"
  else
    let tl := t.toList
    match searchScan time1At tl.length none tl with
    | some (hh, mm, ap) =>
      let h := match ap with
        | none => hh
        | some isPm => convertAp hh isPm
      some (pad2 h ++ ":" ++ pad2 mm)
    | none =>
      match searchScan time2At tl.length none tl with
      | some (hh, isPm) => some (pad2 (convertAp hh isPm) ++ ":00")
      | none => none

/-! ### Name and reason heuristics (nlp.py lines 271–280) -/

/-- Case-insensitive literal match (lead-ins are given in lower case). -/
def stripPrefixCI : List Char → List Char → Option (List Char)
  | [], s => some s
  | _ :: _, [] => none
  | p :: ps, c :: cs => if p == c.toLower then stripPrefixCI ps cs else none

/-- `re.sub(r"\s+", " ", ·)`: collapse each whitespace run to one space. -/
def collapseWsAux : Bool → List Char → List Char
  | _, [] => []
  | inWs, c :: cs =>
    if isPySpace c then
      if inWs then collapseWsAux true cs else ' ' :: collapseWsAux true cs
    else c :: collapseWsAux false cs

/-- Python `str.title()` on ASCII: first letter of each alpha run upper,
the rest lower. -/
def pyTitleAux : Bool → List Char → List Char
  | _, [] => []
  | prevAlpha, c :: cs =>
    if c.isAlpha then
      (if prevAlpha then c.toLower else c.toUpper) :: pyTitleAux true cs
    else c :: pyTitleAux false cs

/-- Group class `[a-z\s\-'`\.]` with `re.I` (the backtick written `\x60`). -/
def isNameChar (c : Char) : Bool :=
  c.isAlpha || isPySpace c || c == '-' || c == '\x27' || c == '\x60' || c == '.'

/-- Group class `[a-z0-9\s\-,'`\.]` with `re.I`. -/
def isReasonChar (c : Char) : Bool :=
  c.isAlpha || c.isDigit || isPySpace c || c == '-' || c == ',' ||
    c == '\x27' || c == '\x60' || c == '.'

def nameLeadIns : List (List Char) :=
  ["my name is".toList, "i am".toList, "it\x27s".toList, "it is".toList]

/-- Attempt of `(?:my name is|i am|it's|it is)\s+([a-z][a-z\s\-'`\.]+)` at a
position (no word boundaries in the source pattern). The greedy `\s+` is
forced: the group must start with a letter. -/
def nameAt (_prev : Option Char) (s : List Char) : Option (List Char) :=
  nameLeadIns.findSome? fun li =>
    match stripPrefixCI li s with
    | some r1 =>
      let ws := r1.takeWhile isPySpace
      if ws.isEmpty then none
      else
        match r1.drop ws.length with
        | c :: cs =>
          if c.isAlpha then
            let run := cs.takeWhile isNameChar
            if run.isEmpty then none else some (c :: run)
          else none
        | [] => none
    | none => none

def reasonLeadIns : List (List Char) :=
  ["because".toList, "for".toList, "regarding".toList, "about".toList]

/-- Backtracking over the greedy `\s+` length (maximal first) for the reason
pattern: the `{3,}` group is the maximal class run from the chosen point. -/
def reasonGroupLoop (r1 : List Char) : Nat → Option (List Char)
  | 0 => none
  | k + 1 =>
    let run := (r1.drop (k + 1)).takeWhile isReasonChar
    if 3 ≤ run.length then some run
    else reasonGroupLoop r1 k

/-- Attempt of `(?:because|for|regarding|about)\s+([a-z0-9\s\-,'`\.]{3,})`
at a position. -/
def reasonAt (_prev : Option Char) (s : List Char) : Option (List Char) :=
  reasonLeadIns.findSome? fun li =>
    match stripPrefixCI li s with
    | some r1 => reasonGroupLoop r1 (r1.takeWhile isPySpace).length
    | none => none

/-! ### Slots, external collaborators, extraction API -/

/-- The five captured slots (also the shape of one extraction result). -/
structure Slots where
  patient_name : Option String
  patient_email : Option String
  appointment_date : Option String
  appointment_time : Option String
  reason : Option String
deriving DecidableEq, Repr

def Slots.empty : Slots := ⟨none, none, none, none, none⟩

/-- Calendar collaborator result (`{"status": ..., "message": ...}`). -/
structure CalRes where
  status : String
  message : Option String
deriving DecidableEq, Repr

/-- Payload handed to `create_google_calendar_event` (audio.py lines
250–256); `finish` models the `end` key. -/
structure Payload where
  patient_name : Option String
  patient_email : Option String
  reason : Option String
  start : PyDT
  finish : PyDT
deriving DecidableEq, Repr

/-- External collaborators and the wall clock, parameters of the embedding:
the OpenAI extraction call (`Except` = raised exception), `dateparser.parse`,
`dateparser.search.search_dates`, the Google-calendar service+creation call,
and `datetime.datetime.now()`. -/
structure Deps where
  llm : String → Except String Slots
  dparse : String → Option PyDT
  dsearch : String → Option (List PyDT)
  cal : Payload → Except String CalRes
  now : PyDT

/-- `_today_00()`. -/
def today00 (deps : Deps) : PyDT :=
  {deps.now with hour := 0, minute := 0}

/-- `_parse_date_time` (nlp.py lines 209–244); exceptions from
`_ensure_future` propagate. -/
def _parse_date_time (text : String) (deps : Deps) :
    Except String (Option String × Option String) :=
  let dateVal := _compute_relative_weekday text (today00 deps)
  let timeStr := _parse_time_component text
  match dateVal with
  | some d => .ok (some (isoDate d), timeStr)
  | none =>
    let dtOpt :=
      match deps.dparse text with
      | some dt => some dt
      | none =>
        match deps.dsearch text with
        | some found =>
          if found.isEmpty then none
          else
            let future := found.filter fun d => toMin deps.now ≤ toMin d
            some (future.headD (found.headD ⟨1, 1, 1, 0, 0⟩))
        | none => none
    match dtOpt with
    | none => .ok (none, timeStr)
    | some dt0 =>
      match _ensure_future deps.now dt0 with
      | .error e => .error e
      | .ok dt =>
        let timeStr :=
          if timeStr.isNone && (dt.hour != 0 || dt.minute != 0) then
            some (pad2 dt.hour ++ ":" ++ pad2 dt.minute)
          else timeStr
        .ok (some (isoDate dt), timeStr)

/-- `extract_fields_with_rules` (nlp.py lines 248–282). -/
def extract_fields_with_rules (user_text : String) (captured : Slots)
    (deps : Deps) : Except String Slots :=
  let email := _extract_email user_text
  match _parse_date_time user_text deps with
  | .error e => .error e
  | .ok dt =>
    let tl := user_text.toList
    let name :=
      if truthy captured.patient_name then none
      else
        match searchScan nameAt tl.length none tl with
        | some g => some (String.mk (pyTitleAux false (collapseWsAux false g)))
        | none => none
    let reason :=
      if truthy captured.reason then none
      else
        match searchScan reasonAt tl.length none tl with
        | some g => some (pyStrip (String.mk (collapseWsAux false g)))
        | none => none
    .ok { patient_name := name, patient_email := email,
          appointment_date := dt.1, appointment_time := dt.2, reason := reason }

/-- `need_llm` condition (nlp.py line 290): `is None` on email/date/time. -/
def need_llm (f : Slots) : Bool :=
  f.patient_email.isNone || f.appointment_date.isNone || f.appointment_time.isNone

/-- Python `a or b` on optional strings (`None`/`""` falsy). -/
def pyOrOpt (a b : Option String) : Option String :=
  if truthy a then a else b

/-- `extract_fields_with_llm` (nlp.py lines 284–329): rules first, the
capability call only to fill gaps, rule values winning on merge. An
exception from the capability call propagates (there is no handler here). -/
def extract_fields_with_llm (user_text : String) (captured : Slots)
    (deps : Deps) : Except String Slots :=
  match extract_fields_with_rules user_text captured deps with
  | .error e => .error e
  | .ok fields =>
    if need_llm fields then
      match deps.llm user_text with
      | .error e => .error e
      | .ok data =>
        .ok { patient_name := pyOrOpt fields.patient_name data.patient_name
              patient_email := pyOrOpt fields.patient_email data.patient_email
              appointment_date := pyOrOpt fields.appointment_date data.appointment_date
              appointment_time := pyOrOpt fields.appointment_time data.appointment_time
              reason := pyOrOpt fields.reason data.reason }
    else .ok fields

/-! ### `audio.py`: session state, dialog controller, turn processor -/

/-- The dialog steps (the `state["step"]` strings of audio.py). -/
inductive Step
  | greeting | ask_name | ask_email | confirm_email | ask_date | ask_time
  | confirm_datetime | ask_reason | confirm
deriving DecidableEq, Repr

/-- One session's state (`conversation_states[session_id]`). -/
structure Sess where
  step : Step
  captured : Slots
  email_confirmed : Bool
  datetime_confirmed : Bool
deriving DecidableEq, Repr

/-- The fresh state built by `_get_session_state` (audio.py lines 36–47). -/
def freshSess : Sess :=
  { step := .greeting, captured := Slots.empty,
    email_confirmed := false, datetime_confirmed := false }

/-- `_normalise_text` (audio.py lines 30–31). -/
def _normalise_text (s : String) : String :=
  String.mk (collapseWsAux false (pyStrip s).toList)

/-- `f"{v}"` on an optional string (`None` prints as `"None"`). -/
def optStr : Option String → String
  | none => "None"
  | some s => s

def splitAllAux (sep : Char) : List Char → List Char → List (List Char)
  | acc, [] => [acc.reverse]
  | acc, c :: cs =>
    if c == sep then acc.reverse :: splitAllAux sep [] cs
    else splitAllAux sep (c :: acc) cs

/-- `email.split("@", 1)`. -/
def splitFirstAt (sep : Char) : List Char → Option (List Char × List Char)
  | [] => none
  | c :: cs =>
    if c == sep then some ([], cs)
    else (splitFirstAt sep cs).map fun p => (c :: p.1, p.2)

def joinSep (sep : String) : List String → String
  | [] => ""
  | [x] => x
  | x :: y :: xs => x ++ sep ++ joinSep sep (y :: xs)

def _COMMON_PROVIDERS : List String :=
  ["gmail", "outlook", "hotmail", "protonmail", "icloud", "yahoo",
   "aol", "zoho", "yandex", "gmx", "hey", "live", "msn", "me"]

def lowerL (l : List Char) : String := String.mk (l.map Char.toLower)

/-- `_speakable_email` (audio.py lines 56–78); a missing `@` raises
`ValueError` in `split`, caught and returning the input unchanged. -/
def _speakable_email (email : String) : String :=
  match splitFirstAt '@' email.toList with
  | none => email
  | some (loc, domain) =>
    let localTokens := loc.map fun ch =>
      if ch == '.' then "dot"
      else if ch == '-' then "dash"
      else if ch == '_' then "underscore"
      else String.mk [ch]
    let labels := splitAllAux '.' [] domain
    let provider := labels.headD []
    let rest := labels.tail
    let domainTokens :=
      if _COMMON_PROVIDERS.contains (lowerL provider) then [lowerL provider]
      else provider.map fun ch => if ch == '-' then "dash" else String.mk [ch]
    let tldTokens := rest.flatMap fun tld => ["dot", lowerL tld]
    joinSep ",  " (localTokens ++ ["at"] ++ domainTokens ++ tldTokens)

def monthName (m : Nat) : String :=
  match m with
  | 1 => "January" | 2 => "February" | 3 => "March" | 4 => "April"
  | 5 => "May" | 6 => "June" | 7 => "July" | 8 => "August"
  | 9 => "September" | 10 => "October" | 11 => "November" | 12 => "December"
  | _ => ""

def weekdayTitleName (w : Nat) : String :=
  match w with
  | 0 => "Monday" | 1 => "Tuesday" | 2 => "Wednesday" | 3 => "Thursday"
  | 4 => "Friday" | 5 => "Saturday" | 6 => "Sunday" | _ => ""

/-- `int(x)` on a digit string (only reached on digit strings). -/
def parseNatL (l : List Char) : Nat :=
  l.foldl (fun acc c => acc * 10 + digitVal c) 0

/-- `_friendly_datetime` (audio.py lines 80–92). -/
def _friendly_datetime (dateIso : String) (time24 : Option String) : String :=
  let parts := splitAllAux '-' [] dateIso.toList
  let y := parseNatL (parts.headD [])
  let m := parseNatL (parts.getD 1 [])
  let d := parseNatL (parts.getD 2 [])
  let hm :=
    if truthy time24 then
      let ps := splitAllAux ':' [] (time24.getD "").toList
      (parseNatL (ps.headD []), parseNatL (ps.getD 1 []))
    else (0, 0)
  let dt : PyDT := ⟨y, m, d, hm.1, hm.2⟩
  let wd := weekdayTitleName (pyWeekday (toDays dt))
  let mon := monthName m
  if truthy time24 then
    let ampm := if hm.1 < 12 then "am" else "pm"
    let h12 := if hm.1 % 12 == 0 then 12 else hm.1 % 12
    let timePart := natStr h12 ++
      (if hm.2 == 0 then "" else ":" ++ pad2 hm.2) ++ " " ++ ampm
    wd ++ " " ++ natStr d ++ " " ++ mon ++ " at " ++ timePart
  else wd ++ " " ++ natStr d ++ " " ++ mon

/-- `_date_examples` (audio.py lines 94–109); `next_monday` is computed by
the source but never interpolated (the string holds a literal
`'next Monday'`). -/
def _date_examples (now : PyDT) : String :=
  let today := {now with hour := 0, minute := 0}
  let w := pyWeekday (toDays today)
  let targetFri := (11 - w) % 7
  let thisFriday := addDays targetFri today
  let absDate := addDays 14 today
  "\x27" ++
    (if targetFri != 0 then weekdayTitleName (pyWeekday (toDays thisFriday))
     else "today") ++
    " " ++ natStr thisFriday.day ++ " " ++ monthName thisFriday.month ++
    "\x27, \x27next Monday\x27, \x27" ++ natStr absDate.day ++ " " ++
    monthName absDate.month ++ "\x27"

/-- Tail of the `_next_prompt` cascade: the `ask_reason`, `confirm` and
defensive-fallback blocks (audio.py lines 148–161). -/
def promptReasonTail (s : Step) (c : Slots) : Step × String :=
  if s == .ask_reason && !truthy c.reason then
    (.ask_reason, "Finally, what is the reason for your visit?")
  else
    let s3 := if s == .ask_reason then Step.confirm else s
    if s3 == .confirm then
      (.confirm,
        "Perfect. I’ve got " ++ optStr c.patient_name ++ " with email " ++
        optStr c.patient_email ++ ", on " ++ optStr c.appointment_date ++
        " at " ++ optStr c.appointment_time ++ " for " ++ optStr c.reason ++
        ". Shall I book this now?")
    else (.ask_name, "Could I take your full name, please?")

/-- `_next_prompt` (audio.py lines 111–161): sequential `if` cascade that
falls through as preconditions are satisfied, returning the new step and
prompt. `now` feeds the dynamic date examples. -/
def _next_prompt (st : Sess) (now : PyDT) : Step × String :=
  let c := st.captured
  if st.step == .greeting then
    (.ask_name,
      "Hello! I can help you book an appointment. Could I take your full name, please?")
  else if st.step == .ask_name && !truthy c.patient_name then
    (.ask_name, "Could I take your full name, please?")
  else
    let s1 := if st.step == .ask_name then Step.ask_email else st.step
    if (s1 == .ask_email || s1 == .confirm_email) && !truthy c.patient_email then
      (.ask_email, "Thanks. What is your email address?")
    else if (s1 == .ask_email || s1 == .confirm_email) && !st.email_confirmed then
      (.confirm_email,
        "I heard " ++ _speakable_email (c.patient_email.getD "") ++ ". Is that correct?")
    else
      let s2 := if s1 == .ask_email || s1 == .confirm_email then Step.ask_date else s1
      if s2 == .ask_date || s2 == .ask_time || s2 == .confirm_datetime then
        if !truthy c.appointment_date && !truthy c.appointment_time then
          (.ask_date,
            "Great. What date would you like? You can say " ++ _date_examples now ++ ".")
        else if truthy c.appointment_date && !truthy c.appointment_time then
          (.ask_time, "What time would you prefer? You can say \x272 pm\x27 or \x2714:30\x27.")
        else if truthy c.appointment_date && truthy c.appointment_time &&
            !st.datetime_confirmed then
          (.confirm_datetime,
            "I heard " ++ _friendly_datetime (c.appointment_date.getD "") c.appointment_time ++
            ". Is that correct?")
        else if truthy c.appointment_date && truthy c.appointment_time &&
            st.datetime_confirmed then
          promptReasonTail .ask_reason c
        else
          -- time present, date absent: every block's guard fails and the
          -- cascade reaches the defensive fallback
          (.ask_name, "Could I take your full name, please?")
      else promptReasonTail s2 c

/-- Which steps expect a value (audio.py line 194). -/
def expectingValue : Step → Bool
  | .ask_email | .confirm_email | .ask_date | .ask_time
  | .confirm_datetime | .ask_reason => true
  | _ => false

/-- Per-slot merge `if v: c[k] = v` (audio.py lines 221–223). -/
def mergeVal (old new_ : Option String) : Option String :=
  if truthy new_ then new_ else old

def mergeSlots (c f : Slots) : Slots :=
  { patient_name := mergeVal c.patient_name f.patient_name
    patient_email := mergeVal c.patient_email f.patient_email
    appointment_date := mergeVal c.appointment_date f.appointment_date
    appointment_time := mergeVal c.appointment_time f.appointment_time
    reason := mergeVal c.reason f.reason }

/-- Merge one extraction result into the session and apply the two
post-merge adjustments of audio.py lines 221–233: entering `confirm_email`
when an email is present at `ask_email`, and re-confirming the datetime when
both parts are present and either changed. -/
def applyFields (st : Sess) (fields : Slots) : Sess :=
  let c0 := st.captured
  let c1 := mergeSlots c0 fields
  let es :=
    if truthy c1.patient_email && st.step == .ask_email then
      (false, Step.confirm_email)
    else (st.email_confirmed, st.step)
  let ds :=
    if truthy c1.appointment_date && truthy c1.appointment_time &&
        (c0.appointment_date != c1.appointment_date ||
         c0.appointment_time != c1.appointment_time) then
      (false, Step.confirm_datetime)
    else (st.datetime_confirmed, es.2)
  { step := ds.2, captured := c1, email_confirmed := es.1,
    datetime_confirmed := ds.1 }

/-- State mutation of a non-init, non-filler turn before the prompt is
computed (audio.py lines 198–235): confirmation handling at the two confirm
steps, otherwise extraction and merge, with any extraction exception
swallowed (`except Exception: pass`) — leaving the state untouched. -/
def updatePhase (st : Sess) (ut : String) (deps : Deps) : Sess :=
  match st.step with
  | .confirm_email =>
    if is_affirmative ut then {st with email_confirmed := true}
    else if is_negative ut then
      {st with email_confirmed := false,
               captured := {st.captured with patient_email := none},
               step := .ask_email}
    else st
  | .confirm_datetime =>
    if is_affirmative ut then {st with datetime_confirmed := true}
    else if is_negative ut then
      {st with datetime_confirmed := false,
               captured := {st.captured with appointment_date := none,
                                             appointment_time := none},
               step := .ask_date}
    else st
  | _ =>
    match extract_fields_with_llm ut st.captured deps with
    | .error _ => st
    | .ok fields => applyFields st fields

/-- Outcome of the booking block (audio.py lines 240–270). -/
structure BookOut where
  payload : Option Payload
  ended : Bool
  response : String
  calErr : String
deriving DecidableEq, Repr

def bookingApology : String :=
  "I couldn\x27t complete the booking just now. Would you like me to try again?"

def bookingSuccessMsg : String :=
  "Your appointment is booked. You’ll receive a confirmation by email shortly. Anything else I can help with?"

/-- The `try` block of the booking trigger: missing date raises
`ValueError`, `fromisoformat` may raise, the calendar call may raise or
return a non-success status. `payload` records the argument passed to the
calendar collaborator, when it is reached. -/
def bookAttempt (c : Slots) (deps : Deps) : BookOut :=
  if !truthy c.appointment_date then
    ⟨none, false, bookingApology, "Missing appointment date."⟩
  else
    match fromisoformatDT (c.appointment_date.getD "") (pyOrStr c.appointment_time "09:00") with
    | .error e => ⟨none, false, bookingApology, e⟩
    | .ok dtv =>
      let p : Payload :=
        ⟨c.patient_name, c.patient_email, c.reason, dtv, addMinutes30 dtv⟩
      match deps.cal p with
      | .error e => ⟨some p, false, bookingApology, e⟩
      | .ok r =>
        if r.status == "success" then ⟨some p, true, bookingSuccessMsg, ""⟩
        else ⟨some p, false, bookingApology, r.message.getD "Unknown calendar error"⟩

/-- Observable outcome of one processed turn: the stored session afterwards
(`none` = removed from the store), the spoken response, the
`X-Session-Ended` flag, the `X-Calendar-Error` header, and the payload the
calendar collaborator was invoked with (if it was). -/
structure TurnOut where
  sess : Option Sess
  response : String
  session_ended : Bool
  calendar_error : String
  calendar_called : Option Payload
deriving DecidableEq, Repr

/-- An init turn (`init` flag, tiny file, or brand-new session): only the
prompt is computed, advancing the step (audio.py lines 189–190). -/
def init_turn (st : Sess) (deps : Deps) : Sess :=
  {st with step := (_next_prompt st deps.now).1}

/-- One non-init turn of `process_audio` (audio.py lines 192–273): transcript
normalisation, filler short-circuit, confirmation/extraction state update,
prompt computation, and the booking trigger (which removes the session from
the store whatever its outcome). -/
def process_turn (st : Sess) (raw : String) (deps : Deps) : TurnOut :=
  let ut := _normalise_text raw
  if expectingValue st.step && is_filler ut then
    let pr := _next_prompt st deps.now
    { sess := some {st with step := pr.1}, response := pr.2,
      session_ended := false, calendar_error := "", calendar_called := none }
  else
    let st1 := updatePhase st ut deps
    let pr := _next_prompt st1 deps.now
    let st2 : Sess := {st1 with step := pr.1}
    if st2.step == .confirm && is_affirmative ut then
      let b := bookAttempt st2.captured deps
      { sess := none, response := b.response, session_ended := b.ended,
        calendar_error := b.calErr, calendar_called := b.payload }
    else
      { sess := some st2, response := pr.2, session_ended := false,
        calendar_error := "", calendar_called := none }

/-- The session state right after the update phase and the prompt's step
mutation — the point at which the booking trigger is evaluated. -/
def postPromptStep (st : Sess) (ut : String) (deps : Deps) : Sess :=
  let st1 := updatePhase st ut deps
  {st1 with step := (_next_prompt st1 deps.now).1}

/-- `_get_session_state`: the session a key maps to, given what the store
holds for it (`none` = absent, created fresh). -/
def sessionFor (stored : Option Sess) : Sess :=
  stored.getD freshSess

/-- Modelled from the spec (§4.4): on a capability-call failure "the turn
proceeds with the rule-only result" — i.e. the rule extraction is still
merged. This is the spec's claimed behaviour for a failing LLM call,
compared against `updatePhase` (which loses the rule result too). -/
def specRuleOnlyUpdate (st : Sess) (ut : String) (deps : Deps) : Sess :=
  match st.step with
  | .confirm_email => updatePhase st ut deps
  | .confirm_datetime => updatePhase st ut deps
  | _ =>
    match extract_fields_with_rules ut st.captured deps with
    | .error _ => st
    | .ok fields => applyFields st fields

/-- The email part of the spec's session invariant (§3): `email_confirmed`
only while an email is present; additionally `confirm_email` is only ever
entered with an email present (needed for preservation). -/
def EmailInv (st : Sess) : Prop :=
  (st.email_confirmed = true → truthy st.captured.patient_email = true) ∧
  (st.step = .confirm_email → truthy st.captured.patient_email = true)

instance (st : Sess) : Decidable (EmailInv st) := by
  unfold EmailInv; infer_instance

deriving instance DecidableEq for Except

/-! ### Concrete fixtures for evaluations -/

/-- Collaborators for concrete evaluations: the capability call raises, the
date parsers find nothing, the calendar succeeds; the clock reads
2026-10-12 09:00 (a Monday). -/
def depsLLMFail : Deps :=
  ⟨fun _ => .error "OpenAI API error", fun _ => none, fun _ => none,
   fun _ => .ok ⟨"success", some "created"⟩, ⟨2026, 10, 12, 9, 0⟩⟩

/-- Same collaborators, but the capability call returns no fields. -/
def depsLLMEmpty : Deps :=
  { depsLLMFail with llm := fun _ => .ok Slots.empty }

/-- Session awaiting email confirmation. -/
def sessConfirmEmail : Sess :=
  { step := .confirm_email
    captured := { Slots.empty with patient_name := some "Sam Smith",
                                   patient_email := some "sam@outlook.com" }
    email_confirmed := false
    datetime_confirmed := false }

/-- Session at `ask_email` (name and reason already captured). -/
def sessAskEmail : Sess :=
  { step := .ask_email
    captured := { Slots.empty with patient_name := some "Sam Smith",
                                   reason := some "a checkup" }
    email_confirmed := false
    datetime_confirmed := false }

/-- Session at `ask_date` with a confirmed email. -/
def sessAskDate : Sess :=
  { step := .ask_date
    captured := { Slots.empty with patient_name := some "Sam Smith",
                                   patient_email := some "sam@outlook.com",
                                   reason := some "a checkup" }
    email_confirmed := true
    datetime_confirmed := false }

/-- Session at the final `confirm` step with all five slots captured. -/
def sessConfirm : Sess :=
  { step := .confirm
    captured := ⟨some "Sam Smith", some "sam@outlook.com",
                 some "2026-10-16", some "14:30", some "a checkup"⟩
    email_confirmed := true
    datetime_confirmed := true }

end VCA

/-! ## Theorems -/

namespace VCA

/-! ### Character and scanner lemmas -/

theorem char_toNat_le_of_le {a b : Char} (h : a ≤ b) : a.toNat ≤ b.toNat := by
  simp only [Char.le_def, UInt32.le_def, Fin.le_def] at h
  simpa [Char.toNat, UInt32.toNat] using h

theorem digit_toNat {c : Char} (h : c.isDigit = true) :
    48 ≤ c.toNat ∧ c.toNat ≤ 57 := by
  simp only [Char.isDigit, Bool.and_eq_true, decide_eq_true_eq,
    UInt32.le_def, Fin.le_def] at h
  simpa [Char.toNat, UInt32.toNat] using h

theorem findSome?_mem {α β : Type} {f : α → Option β} {l : List α} {b : β}
    (h : l.findSome? f = some b) : ∃ a ∈ l, f a = some b := by
  induction l with
  | nil => simp [List.findSome?] at h
  | cons x xs ih =>
    cases hfx : f x with
    | some v =>
      simp only [List.findSome?_cons, hfx] at h
      exact ⟨x, List.mem_cons_self x xs, by rw [hfx, h]⟩
    | none =>
      simp only [List.findSome?_cons, hfx] at h
      obtain ⟨a, ha, hfa⟩ := ih h
      exact ⟨a, List.mem_cons_of_mem x ha, hfa⟩

theorem searchScan_some {α : Type} {f : Option Char → List Char → Option α} :
    ∀ {fuel : Nat} {prev : Option Char} {s : List Char} {a : α},
      searchScan f fuel prev s = some a → ∃ p t, f p t = some a := by
  intro fuel
  induction fuel with
  | zero => intro prev s a h; simp [searchScan] at h
  | succ n ih =>
    intro prev s a h
    match s with
    | [] => simp [searchScan] at h
    | c :: cs =>
      cases hf : f prev (c :: cs) with
      | some r =>
        rw [searchScan] at h
        simp only [hf] at h
        exact ⟨prev, c :: cs, by rw [hf, h]⟩
      | none =>
        rw [searchScan] at h
        simp only [hf] at h
        exact ih h

/-! ### Hour/minute bounds of the time matchers -/

theorem hourAlts1_le {s : List Char} {p : Nat × List Char}
    (h : p ∈ hourAlts1 s) : p.1 ≤ 23 := by
  have e0 : ('0' : Char).toNat = 48 := rfl
  have e1 : ('1' : Char).toNat = 49 := rfl
  have e3 : ('3' : Char).toNat = 51 := rfl
  match s with
  | [] => simp [hourAlts1] at h
  | [c1] =>
    simp only [hourAlts1] at h
    split at h
    · rcases List.mem_singleton.1 h with rfl
      have := digit_toNat (by assumption)
      simp only [digitVal]
      omega
    · simp at h
  | c1 :: c2 :: r =>
    simp only [hourAlts1, List.mem_append] at h
    rcases h with (h | h) | h
    · split at h
      · rcases List.mem_singleton.1 h with rfl
        rename_i hc
        simp only [Bool.and_eq_true, Bool.or_eq_true, beq_iff_eq] at hc
        have h2 := digit_toNat hc.2
        simp only [digitVal]
        rcases hc.1 with rfl | rfl <;> omega
      · simp at h
    · split at h
      · rcases List.mem_singleton.1 h with rfl
        have := digit_toNat (by assumption)
        simp only [digitVal]
        omega
      · simp at h
    · split at h
      · rcases List.mem_singleton.1 h with rfl
        rename_i hc
        simp only [Bool.and_eq_true, Bool.or_eq_true, beq_iff_eq,
          decide_eq_true_eq] at hc
        have h3 := char_toNat_le_of_le hc.2.2
        simp only [digitVal]
        omega
      · simp at h

theorem hourAlts2_le {s : List Char} {p : Nat × List Char}
    (h : p ∈ hourAlts2 s) : p.1 ≤ 19 := by
  have e0 : ('0' : Char).toNat = 48 := rfl
  have e1 : ('1' : Char).toNat = 49 := rfl
  match s with
  | [] => simp [hourAlts2] at h
  | [c1] =>
    simp only [hourAlts2] at h
    split at h
    · rcases List.mem_singleton.1 h with rfl
      have := digit_toNat (by assumption)
      simp only [digitVal]
      omega
    · simp at h
  | c1 :: c2 :: r =>
    simp only [hourAlts2, List.mem_append] at h
    rcases h with h | h
    · split at h
      · rcases List.mem_singleton.1 h with rfl
        rename_i hc
        simp only [Bool.and_eq_true, Bool.or_eq_true, beq_iff_eq] at hc
        have h2 := digit_toNat hc.2
        simp only [digitVal]
        rcases hc.1 with rfl | rfl <;> omega
      · simp at h
    · split at h
      · rcases List.mem_singleton.1 h with rfl
        have := digit_toNat (by assumption)
        simp only [digitVal]
        omega
      · simp at h

theorem time1Tail_bounds {hh : Nat} {rest : List Char}
    {r : Nat × Nat × Option Bool} (h : time1Tail hh rest = some r) :
    r.1 = hh ∧ r.2.1 ≤ 59 := by
  unfold time1Tail at h
  split at h
  next r2 heq =>
    split at h
    next m1 m2 r4 heq2 =>
      split at h
      next hdig =>
        split at h
        next ap hap =>
          injection h with h
          subst h
          refine ⟨rfl, ?_⟩
          show digitVal m1 * 10 + digitVal m2 ≤ 59
          simp only [Bool.and_eq_true, decide_eq_true_eq] at hdig
          have h1 := char_toNat_le_of_le hdig.1.2
          have h2 := digit_toNat hdig.2
          have e5 : ('5' : Char).toNat = 53 := rfl
          simp only [digitVal]
          omega
        next => exact absurd h (by simp)
      next => exact absurd h (by simp)
    next => exact absurd h (by simp)
  next => exact absurd h (by simp)

theorem time1At_bounds {prev : Option Char} {s : List Char}
    {r : Nat × Nat × Option Bool} (h : time1At prev s = some r) :
    r.1 ≤ 23 ∧ r.2.1 ≤ 59 := by
  unfold time1At at h
  split at h
  · obtain ⟨hc, hmem, hfc⟩ := findSome?_mem h
    obtain ⟨h1, h2⟩ := time1Tail_bounds hfc
    exact ⟨h1 ▸ hourAlts1_le hmem, h2⟩
  · exact absurd h (by simp)

theorem time2At_bounds {prev : Option Char} {s : List Char}
    {r : Nat × Bool} (h : time2At prev s = some r) : r.1 ≤ 19 := by
  unfold time2At at h
  split at h
  · obtain ⟨hc, hmem, hfc⟩ := findSome?_mem h
    split at hfc
    · injection hfc with hfc
      subst hfc
      exact hourAlts2_le hmem
    · exact absurd hfc (by simp)
  · exact absurd h (by simp)

theorem convertAp_bound {hh : Nat} (hle : hh ≤ 23) (isPm : Bool) :
    convertAp hh isPm ≤ 35 ∧ convertAp hh isPm ≠ 24 := by
  unfold convertAp
  rcases isPm with _ | _ <;> by_cases h12 : (hh == 12) = true <;>
    simp only [h12, if_true, if_false, Bool.false_eq_true, if_neg,
      Bool.not_eq_true] <;>
    simp only [beq_iff_eq] at h12 <;> simp <;> omega

/-! ### C5 and C10: the time extractor -/

/-- C5 counterexample: for the utterance `"13:30 pm"` the extractor emits
`"25:30"` — the pm conversion adds 12 to an hour that is already in 24-hour
form, so the produced value is not a valid 24-hour `HH:MM` string, contrary
to the claim that the hour never reaches 24. -/
theorem c5_counterexample_1330pm :
    _parse_time_component "13:30 pm" = some "25:30" := by decide

/-- C5 (amended): every time value the rule time extractor produces is
either absent or a string `pad2 hh ++ ":" ++ pad2 mm` with `mm ≤ 59` and
`hh ≤ 35` but never exactly 24; hours 24–35 do occur, exactly when an
explicit am/pm follows a spoken hour of 13–23 (13–19 in the bare-hour form),
e.g. `"13:30 pm" ↦ "25:30"`. The claim's stated invariant `hh ≤ 23` fails
only on those inputs. -/
theorem c5_time_value_shape (s t : String)
    (h : _parse_time_component s = some t) :
    ∃ hh mm, t = pad2 hh ++ ":" ++ pad2 mm ∧ mm ≤ 59 ∧ hh ≤ 35 ∧ hh ≠ 24 := by
  simp only [_parse_time_component] at h
  split at h
  · injection h with h
    exact ⟨12, 0, h.symm, by omega, by omega, by omega⟩
  · split at h
    · injection h with h
      exact ⟨0, 0, h.symm, by omega, by omega, by omega⟩
    · cases h1c : searchScan time1At (pyLower s).toList.length none
          (pyLower s).toList with
      | some trip =>
        obtain ⟨hh, mm, ap⟩ := trip
        simp only [h1c] at h
        injection h with h
        subst h
        obtain ⟨p, s', hat⟩ := searchScan_some h1c
        obtain ⟨hle23, hle59⟩ := time1At_bounds hat
        simp only at hle23 hle59
        cases ap with
        | none => exact ⟨hh, mm, rfl, hle59, by omega, by omega⟩
        | some isPm =>
          obtain ⟨b1, b2⟩ := convertAp_bound hle23 isPm
          exact ⟨convertAp hh isPm, mm, rfl, hle59, b1, b2⟩
      | none =>
        simp only [h1c] at h
        cases h2c : searchScan time2At (pyLower s).toList.length none
            (pyLower s).toList with
        | some pr =>
          obtain ⟨hh, isPm⟩ := pr
          simp only [h2c] at h
          injection h with h
          subst h
          obtain ⟨p, s', hat⟩ := searchScan_some h2c
          have hle19 := time2At_bounds hat
          simp only at hle19
          obtain ⟨b1, b2⟩ := @convertAp_bound hh (by omega) isPm
          refine ⟨convertAp hh isPm, 0, ?_, by omega, b1, b2⟩
          rw [String.append_assoc]
          congr 1
        | none =>
          rw [h2c] at h
          exact absurd h (by simp)

/-- C5 witness: the amended shape theorem applied at the concrete utterance
`"noon"`. -/
theorem c5_time_value_shape_witness :
    _parse_time_component "noon" = some "12:00" ∧
      ∃ hh mm, "12:00" = pad2 hh ++ ":" ++ pad2 mm ∧ mm ≤ 59 ∧ hh ≤ 35 ∧ hh ≠ 24 :=
  ⟨by decide, c5_time_value_shape "noon" "12:00" (by decide)⟩

/-- C10: the time extractor tests for the substring `"noon"` before any
clock pattern, so every utterance containing `"noon"` — including the word
`"afternoon"` — yields `12:00` regardless of an explicit clock time. -/
theorem c10_noon_substring_wins (s : String)
    (h : containsSub "noon" (pyLower s) = true) :
    _parse_time_component s = some "12:00" := by
  unfold _parse_time_component
  simp [h]

/-- C10 witness: `"afternoon at 3 pm"` yields `12:00`, not `15:00`. -/
theorem c10_noon_substring_wins_witness :
    containsSub "noon" (pyLower "afternoon at 3 pm") = true ∧
      _parse_time_component "afternoon at 3 pm" = some "12:00" :=
  ⟨by decide, c10_noon_substring_wins "afternoon at 3 pm" (by decide)⟩

/-! ### C1: scenario-A email extraction -/

/-- C1: for the utterance `"my email is ali at highways industry dot com"`
normalisation yields `"ali@highways industry.com"` — the space inside the
spoken two-word domain survives, because whitespace is only collapsed
adjacent to `@` and `.` — and the extractor then finds no email at all
(`EMAIL_REGEX` cannot cross the space; the recovery path finds the domain
`industry.com` but no `... at` to its left). The spec's claimed result
`patient_email == "ali@highwaysindustry.com"` is not produced; the
function's own docstring lists exactly this utterance as handled. -/
theorem c1_scenario_a_email_is_lost :
    _normalize_spoken_tokens "my email is ali at highways industry dot com" =
      "ali@highways industry.com" ∧
    _extract_email "my email is ali at highways industry dot com" = none :=
  ⟨by decide, by decide⟩

/-! ### C4: confirmation classification of "incorrect" -/

/-- C4: the affirmative check is a substring test, and `"correct"` is a
substring of `"incorrect"`, so at `confirm_email` the utterance
`"incorrect"` is classified as affirmative: the email is kept and marked
confirmed and the dialog advances to `ask_date` — not (as the claim states)
cleared with the step returning to `ask_email`. The code's own negative
keyword list contains `"incorrect"`, which can never fire here. -/
theorem c4_incorrect_classified_affirmative :
    is_affirmative "incorrect" = true ∧
    is_negative "incorrect" = true ∧
    (process_turn sessConfirmEmail "incorrect" depsLLMFail).sess =
      some { sessConfirmEmail with email_confirmed := true, step := .ask_date } :=
  ⟨by decide, by decide, by decide⟩

/-! ### Calendar arithmetic lemmas -/

theorem daysInMonth_pos (y m : Nat) : 1 ≤ daysInMonth y m := by
  unfold daysInMonth
  split
  · split <;> omega
  · split <;> omega

theorem nextDay_valid {dt : PyDT} (h : validDate dt = true) :
    validDate (nextDay dt) = true := by
  obtain ⟨y, m, d, hh, mm⟩ := dt
  have p1 := daysInMonth_pos y (m + 1)
  have p2 := daysInMonth_pos (y + 1) 1
  simp only [validDate, Bool.and_eq_true, decide_eq_true_eq] at h ⊢
  unfold nextDay
  split
  next hlt =>
    simp only at hlt ⊢
    omega
  next hlt =>
    simp only at hlt
    split
    next hm12 =>
      simp only at hm12 ⊢
      omega
    next hm12 =>
      simp only at hm12 ⊢
      omega

theorem daysBeforeYear_succ (y : Nat) (hy : 1 ≤ y) :
    daysBeforeYear (y + 1) =
      daysBeforeYear y + 365 + (if isLeap y = true then 1 else 0) := by
  have e1 : y + 1 - 1 = y := by omega
  have hle : (y - 1) / 100 ≤ 365 * (y - 1) + (y - 1) / 4 := by
    have h1 := Nat.div_le_self (y - 1) 100
    have h2 := Nat.div_le_self (y - 1) 4
    omega
  cases hL : isLeap y
  case false =>
    have hP : ¬(y % 4 = 0 ∧ (y % 100 ≠ 0 ∨ y % 400 = 0)) := by
      simpa [isLeap, Bool.and_eq_true, Bool.or_eq_true, beq_iff_eq,
        bne_iff_ne, decide_eq_true_eq] using hL
    simp only [daysBeforeYear, e1, Bool.false_eq_true, if_false]
    by_cases h4 : y % 4 = 0
    · have hBC : y % 100 = 0 ∧ y % 400 ≠ 0 := by tauto
      have d1 : y / 4 = (y - 1) / 4 + 1 := by omega
      have d2 : y / 100 = (y - 1) / 100 + 1 := by omega
      have d3 : y / 400 = (y - 1) / 400 := by omega
      omega
    · have d1 : y / 4 = (y - 1) / 4 := by omega
      have h100 : y % 100 ≠ 0 := by omega
      have h400 : y % 400 ≠ 0 := by omega
      have d2 : y / 100 = (y - 1) / 100 := by omega
      have d3 : y / 400 = (y - 1) / 400 := by omega
      omega
  case true =>
    have hP : y % 4 = 0 ∧ (y % 100 ≠ 0 ∨ y % 400 = 0) := by
      simpa [isLeap, Bool.and_eq_true, Bool.or_eq_true, beq_iff_eq,
        bne_iff_ne, decide_eq_true_eq] using hL
    simp only [daysBeforeYear, e1, if_true]
    have d1 : y / 4 = (y - 1) / 4 + 1 := by omega
    by_cases h100 : y % 100 = 0
    · have h400 : y % 400 = 0 := by tauto
      have d2 : y / 100 = (y - 1) / 100 + 1 := by omega
      have d3 : y / 400 = (y - 1) / 400 + 1 := by omega
      omega
    · have h400 : y % 400 ≠ 0 := by omega
      have d2 : y / 100 = (y - 1) / 100 := by omega
      have d3 : y / 400 = (y - 1) / 400 := by omega
      omega

theorem monthRoll (y m : Nat) (h1 : 1 ≤ m) (h2 : m < 12) :
    monthOffset (m + 1) + (if (decide (2 < m + 1) && isLeap y) = true then 1 else 0) =
      monthOffset m + (if (decide (2 < m) && isLeap y) = true then 1 else 0) +
        daysInMonth y m := by
  interval_cases m <;> cases hL : isLeap y <;>
    simp only [hL, monthOffset, daysInMonth] <;> norm_num

theorem nextDay_toDays {dt : PyDT} (h : validDate dt = true) :
    toDays (nextDay dt) = toDays dt + 1 := by
  obtain ⟨y, m, d, hh, mm⟩ := dt
  simp only [validDate, Bool.and_eq_true, decide_eq_true_eq] at h
  unfold nextDay
  split
  next hlt =>
    simp only at hlt
    simp only [toDays]
    omega
  next hlt =>
    simp only at hlt
    split
    next hm12 =>
      simp only at hm12
      have hd : d = daysInMonth y m := by omega
      subst hd
      simp only [toDays]
      have hroll := monthRoll y m (by omega) hm12
      omega
    next hm12 =>
      simp only at hm12
      have hm : m = 12 := by omega
      subst hm
      have hd : d = 31 := by
        have h31 : daysInMonth y 12 = 31 := rfl
        omega
      subst hd
      have hy : 1 ≤ y := by omega
      clear hlt hm12 h
      have ht1 : toDays ⟨y + 1, 1, 1, hh, mm⟩ = daysBeforeYear (y + 1) + 1 := by
        simp [toDays, monthOffset]
      have ht2 : toDays ⟨y, 12, 31, hh, mm⟩ =
          daysBeforeYear y + 334 + (if isLeap y = true then 1 else 0) + 31 := by
        simp [toDays, monthOffset]
      have hs := daysBeforeYear_succ y hy
      simp only [ht1, ht2]
      omega

theorem toMin_mk_update (dt : PyDT) (a b : Nat) :
    toMin { dt with hour := a, minute := b } = toDays dt * 1440 + a * 60 + b := rfl

theorem addDays_valid {dt : PyDT} (h : validDate dt = true) (n : Nat) :
    validDate (addDays n dt) = true := by
  induction n generalizing dt with
  | zero => exact h
  | succ k ih => exact ih (nextDay_valid h)

theorem addDays_toDays {dt : PyDT} (h : validDate dt = true) (n : Nat) :
    toDays (addDays n dt) = toDays dt + n := by
  induction n generalizing dt with
  | zero => rfl
  | succ k ih =>
    have h2 := ih (nextDay_valid h)
    simp only [addDays] at h2 ⊢
    rw [h2, nextDay_toDays h]
    omega

theorem nextDay_time (dt : PyDT) :
    (nextDay dt).hour = dt.hour ∧ (nextDay dt).minute = dt.minute := by
  unfold nextDay
  split
  · exact ⟨rfl, rfl⟩
  · split <;> exact ⟨rfl, rfl⟩

theorem addDays_time (dt : PyDT) (n : Nat) :
    (addDays n dt).hour = dt.hour ∧ (addDays n dt).minute = dt.minute := by
  induction n generalizing dt with
  | zero => exact ⟨rfl, rfl⟩
  | succ k ih =>
    have h2 := ih (nextDay dt)
    have hn := nextDay_time dt
    simp only [addDays]
    exact ⟨hn.1 ▸ h2.1, hn.2 ▸ h2.2⟩

theorem validDate_hm {dt : PyDT} (h : validDate dt = true) :
    dt.hour ≤ 23 ∧ dt.minute ≤ 59 := by
  obtain ⟨y, m, d, hh, mm⟩ := dt
  simp only [validDate, Bool.and_eq_true, decide_eq_true_eq] at h
  exact ⟨h.1.2, h.2⟩

theorem addMinutes30_toMin {dt : PyDT} (h : validDate dt = true) :
    toMin (addMinutes30 dt) = toMin dt + 30 := by
  have hv := validDate_hm h
  simp only [addMinutes30]
  split
  next hlt =>
    rw [toMin_mk_update]
    simp only [toMin]
    omega
  next hlt =>
    rw [toMin_mk_update]
    rw [nextDay_toDays h]
    simp only [toMin]
    omega

/-! ### C9: `_ensure_future` -/

/-- C9 counterexample: `dateparser` can hand back February 29 of a past leap
year (here 2024-02-29 10:00 with the clock at 2026-10-12 09:00, more than
7 days past); the year-advance branch then calls
`dt.replace(year=dt.year+1)`, and 2025-02-29 does not exist, so the code
raises `ValueError` instead of producing any corrected datetime — the claim
that such datetimes are corrected by advancing the year fails here. -/
theorem c9_counterexample_feb29 :
    toMin ⟨2024, 2, 29, 10, 0⟩ < toMin ⟨2026, 10, 12, 9, 0⟩ ∧
    7 ≤ (toMin ⟨2026, 10, 12, 9, 0⟩ - toMin ⟨2024, 2, 29, 10, 0⟩) / 1440 ∧
    _ensure_future ⟨2026, 10, 12, 9, 0⟩ ⟨2024, 2, 29, 10, 0⟩ =
      .error "day is out of range for month" :=
  ⟨by decide, by decide, by decide⟩

/-- C9 (amended): `_ensure_future` returns a strictly-future datetime
unchanged; a datetime not strictly in the future and less than 7 days old
(by Python's floor `timedelta.days`) is moved exactly 7 days (7·1440
minutes) later; one 7 or more days old has its year advanced by one when
that calendar date exists, and otherwise (February 29 whose successor year
is not leap) the call raises `ValueError`, which the turn treats as an
extraction failure. -/
theorem c9_ensure_future_cases (now dt : PyDT) :
    (toMin now < toMin dt → _ensure_future now dt = .ok dt) ∧
    (¬ toMin now < toMin dt → (toMin now - toMin dt) / 1440 < 7 →
      _ensure_future now dt = .ok (addDays 7 dt)) ∧
    (¬ toMin now < toMin dt → ¬ (toMin now - toMin dt) / 1440 < 7 →
      (dt.day ≤ daysInMonth (dt.year + 1) dt.month →
        _ensure_future now dt = .ok {dt with year := dt.year + 1}) ∧
      (¬ dt.day ≤ daysInMonth (dt.year + 1) dt.month →
        _ensure_future now dt = .error "day is out of range for month")) ∧
    (validDate dt = true → toMin (addDays 7 dt) = toMin dt + 7 * 1440) := by
  refine ⟨?_, ?_, ?_, ?_⟩
  · intro h1
    unfold _ensure_future
    rw [if_pos h1]
  · intro h1 h2
    unfold _ensure_future
    rw [if_neg h1, if_pos h2]
  · intro h1 h2
    constructor
    · intro h3
      unfold _ensure_future replaceYearPlus1
      rw [if_neg h1, if_neg h2, if_pos h3]
    · intro h3
      unfold _ensure_future replaceYearPlus1
      rw [if_neg h1, if_neg h2, if_neg h3]
  · intro hv
    have h1 := addDays_toDays hv 7
    have h2 := addDays_time dt 7
    simp only [toMin, h1, h2.1, h2.2]
    omega

/-- C9 witness: a datetime one hour in the past is corrected by exactly
seven days. -/
theorem c9_ensure_future_cases_witness :
    _ensure_future ⟨2026, 10, 12, 9, 0⟩ ⟨2026, 10, 12, 8, 0⟩ =
      .ok (addDays 7 ⟨2026, 10, 12, 8, 0⟩) :=
  (c9_ensure_future_cases ⟨2026, 10, 12, 9, 0⟩ ⟨2026, 10, 12, 8, 0⟩).2.1
    (by decide) (by decide)

/-! ### C6: relative weekday resolution -/

theorem next_weekday_spec (base : PyDT) (hb : validDate base = true)
    (idx : Nat) (hidx : idx ≤ 6) :
    (toDays base ≤ toDays (_next_weekday base idx true) ∧
     toDays (_next_weekday base idx true) < toDays base + 7 ∧
     pyWeekday (toDays (_next_weekday base idx true)) = idx) ∧
    (toDays base < toDays (_next_weekday base idx false) ∧
     toDays (_next_weekday base idx false) ≤ toDays base + 7 ∧
     pyWeekday (toDays (_next_weekday base idx false)) = idx) := by
  have hw : pyWeekday (toDays base) ≤ 6 := by unfold pyWeekday; omega
  unfold _next_weekday
  have hd0 : (((idx : Int) - (pyWeekday (toDays base) : Int)) % 7).toNat =
      (idx + 7 - pyWeekday (toDays base)) % 7 := by omega
  rw [hd0]
  constructor
  · simp only [Bool.not_true, Bool.and_false, Bool.false_eq_true, if_false]
    rw [addDays_toDays hb]
    unfold pyWeekday at *
    constructor
    · omega
    constructor
    · omega
    · omega
  · simp only [Bool.not_false, Bool.and_true]
    by_cases hz : (idx + 7 - pyWeekday (toDays base)) % 7 = 0
    · simp only [hz, Nat.zero_mod]
      norm_num
      rw [addDays_toDays hb]
      unfold pyWeekday at *
      refine ⟨by omega, by omega, by omega⟩
    · rw [if_neg (by simpa [beq_iff_eq] using hz)]
      rw [addDays_toDays hb]
      unfold pyWeekday at *
      refine ⟨by omega, by omega, by omega⟩

theorem c6_case (base : PyDT) (hb : validDate base = true) (idx : Nat)
    (hidx : idx ≤ 6) :
    (toDays base < toDays (_next_weekday base idx false) ∧
      toDays (_next_weekday base idx false) ≤ toDays base + 7 ∧
      pyWeekday (toDays (_next_weekday base idx false)) = idx) ∧
    (toDays base ≤ toDays (_next_weekday base idx true) ∧
      toDays (_next_weekday base idx true) < toDays base + 7 ∧
      pyWeekday (toDays (_next_weekday base idx true)) = idx) ∧
    (pyWeekday (toDays base) = 2 → idx = 4 →
      toDays (_next_weekday base idx true) = toDays base + 2) := by
  have h1 := (next_weekday_spec base hb idx hidx).1
  have h2 := (next_weekday_spec base hb idx hidx).2
  refine ⟨h2, h1, ?_⟩
  intro hw hi
  subst hi
  unfold pyWeekday at h1 hw
  omega

/-- C6: for every valid reference date and every weekday name, "next w" and
"coming w" resolve to w's next occurrence strictly after today (1–7 days
ahead, never today), and the bare weekday resolves to the nearest occurrence
including today (0–6 days ahead); in particular a bare `"friday"` on a
Wednesday resolves to two days later. -/
theorem c6_weekday_resolution (base : PyDT) (hb : validDate base = true)
    (i : Fin 7) :
    ∃ dn dc db,
      _compute_relative_weekday ("next " ++ weekdayNames.getD i.val "") base = some dn ∧
      _compute_relative_weekday ("coming " ++ weekdayNames.getD i.val "") base = some dc ∧
      _compute_relative_weekday (weekdayNames.getD i.val "") base = some db ∧
      (toDays base < toDays dn ∧ toDays dn ≤ toDays base + 7 ∧
        pyWeekday (toDays dn) = i.val) ∧
      (toDays base < toDays dc ∧ toDays dc ≤ toDays base + 7 ∧
        pyWeekday (toDays dc) = i.val) ∧
      (toDays base ≤ toDays db ∧ toDays db < toDays base + 7 ∧
        pyWeekday (toDays db) = i.val) ∧
      (pyWeekday (toDays base) = 2 → i.val = 4 → toDays db = toDays base + 2) := by
  fin_cases i
  · obtain ⟨ha, hb2, hc⟩ := c6_case base hb 0 (by omega)
    exact ⟨_next_weekday base 0 false, _next_weekday base 0 false,
      _next_weekday base 0 true, rfl, rfl, rfl, ha, ha, hb2, hc⟩
  · obtain ⟨ha, hb2, hc⟩ := c6_case base hb 1 (by omega)
    exact ⟨_next_weekday base 1 false, _next_weekday base 1 false,
      _next_weekday base 1 true, rfl, rfl, rfl, ha, ha, hb2, hc⟩
  · obtain ⟨ha, hb2, hc⟩ := c6_case base hb 2 (by omega)
    exact ⟨_next_weekday base 2 false, _next_weekday base 2 false,
      _next_weekday base 2 true, rfl, rfl, rfl, ha, ha, hb2, hc⟩
  · obtain ⟨ha, hb2, hc⟩ := c6_case base hb 3 (by omega)
    exact ⟨_next_weekday base 3 false, _next_weekday base 3 false,
      _next_weekday base 3 true, rfl, rfl, rfl, ha, ha, hb2, hc⟩
  · obtain ⟨ha, hb2, hc⟩ := c6_case base hb 4 (by omega)
    exact ⟨_next_weekday base 4 false, _next_weekday base 4 false,
      _next_weekday base 4 true, rfl, rfl, rfl, ha, ha, hb2, hc⟩
  · obtain ⟨ha, hb2, hc⟩ := c6_case base hb 5 (by omega)
    exact ⟨_next_weekday base 5 false, _next_weekday base 5 false,
      _next_weekday base 5 true, rfl, rfl, rfl, ha, ha, hb2, hc⟩
  · obtain ⟨ha, hb2, hc⟩ := c6_case base hb 6 (by omega)
    exact ⟨_next_weekday base 6 false, _next_weekday base 6 false,
      _next_weekday base 6 true, rfl, rfl, rfl, ha, ha, hb2, hc⟩

/-- C6 witness: on Wednesday 2026-10-14, bare `"friday"` resolves to
2026-10-16, two days later, and `"next friday"` to the same date (the next
occurrence strictly after today). -/
theorem c6_weekday_resolution_witness :
    validDate ⟨2026, 10, 14, 0, 0⟩ = true ∧
    _compute_relative_weekday "friday" ⟨2026, 10, 14, 0, 0⟩ =
      some ⟨2026, 10, 16, 0, 0⟩ ∧
    _compute_relative_weekday "next friday" ⟨2026, 10, 14, 0, 0⟩ =
      some ⟨2026, 10, 16, 0, 0⟩ ∧
    ∃ dn dc db,
      _compute_relative_weekday ("next " ++ weekdayNames.getD 4 "") ⟨2026, 10, 14, 0, 0⟩ = some dn ∧
      _compute_relative_weekday ("coming " ++ weekdayNames.getD 4 "") ⟨2026, 10, 14, 0, 0⟩ = some dc ∧
      _compute_relative_weekday (weekdayNames.getD 4 "") ⟨2026, 10, 14, 0, 0⟩ = some db ∧
      (toDays ⟨2026, 10, 14, 0, 0⟩ < toDays dn ∧ toDays dn ≤ toDays ⟨2026, 10, 14, 0, 0⟩ + 7 ∧
        pyWeekday (toDays dn) = 4) ∧
      (toDays ⟨2026, 10, 14, 0, 0⟩ < toDays dc ∧ toDays dc ≤ toDays ⟨2026, 10, 14, 0, 0⟩ + 7 ∧
        pyWeekday (toDays dc) = 4) ∧
      (toDays ⟨2026, 10, 14, 0, 0⟩ ≤ toDays db ∧ toDays db < toDays ⟨2026, 10, 14, 0, 0⟩ + 7 ∧
        pyWeekday (toDays db) = 4) ∧
      (pyWeekday (toDays ⟨2026, 10, 14, 0, 0⟩) = 2 → (4 : Fin 7).val = 4 →
        toDays db = toDays ⟨2026, 10, 14, 0, 0⟩ + 2) :=
  ⟨by decide, by decide, by decide,
    c6_weekday_resolution ⟨2026, 10, 14, 0, 0⟩ (by decide) 4⟩
/-! ### C2: LLM-failure handling -/

/-- C2 counterexample: at `ask_email` (name and reason captured), the rule
extractor finds the email in `"it is ali@outlook.com"`, the LLM is still
needed (date/time absent) and its call raises; the exception propagates out
of `extract_fields_with_llm`, and `process_audio`'s `except ...: pass`
skips the merge — the turn leaves the session exactly unchanged and the
rule-found email is lost. The rule-only outcome the claim demands (email
captured, step `confirm_email`) differs, refuting the claim. -/
theorem c2_counterexample_llm_exception_drops_rule_result :
    extract_fields_with_rules "it is ali@outlook.com" sessAskEmail.captured
        depsLLMFail = .ok ⟨none, some "ali@outlook.com", none, none, none⟩ ∧
    depsLLMFail.llm "it is ali@outlook.com" = .error "OpenAI API error" ∧
    updatePhase sessAskEmail "it is ali@outlook.com" depsLLMFail = sessAskEmail ∧
    (process_turn sessAskEmail "it is ali@outlook.com" depsLLMFail).sess =
      some sessAskEmail ∧
    specRuleOnlyUpdate sessAskEmail "it is ali@outlook.com" depsLLMFail =
      { sessAskEmail with
          step := .confirm_email,
          captured := { sessAskEmail.captured with
                          patient_email := some "ali@outlook.com" } } :=
  ⟨by decide, by decide, by decide, by decide, by decide⟩

/-- C2 (amended): when the rule extractor succeeds, the LLM is still needed
and the capability call fails, the turn's update phase leaves the session
exactly unchanged: the rule extractor's result for that turn is discarded
along with the LLM's, rather than the rule-only result being merged. -/
theorem c2_llm_failure_keeps_state_unchanged (st : Sess) (ut : String)
    (deps : Deps) (f : Slots) (e : String)
    (h1 : st.step ≠ .confirm_email) (h2 : st.step ≠ .confirm_datetime)
    (hr : extract_fields_with_rules ut st.captured deps = .ok f)
    (hn : need_llm f = true)
    (hl : deps.llm ut = .error e) :
    updatePhase st ut deps = st := by
  have hllm : extract_fields_with_llm ut st.captured deps = .error e := by
    unfold extract_fields_with_llm
    rw [hr]
    simp only [hn, if_true, hl]
  obtain ⟨stp, cap, ec, dc⟩ := st
  cases stp
  case confirm_email => exact absurd rfl h1
  case confirm_datetime => exact absurd rfl h2
  all_goals
    simp only [updatePhase, hllm]

/-- C2 witness: the amended theorem applied at the counterexample input. -/
theorem c2_llm_failure_keeps_state_unchanged_witness :
    updatePhase sessAskEmail "it is ali@outlook.com" depsLLMFail =
      sessAskEmail :=
  c2_llm_failure_keeps_state_unchanged sessAskEmail "it is ali@outlook.com"
    depsLLMFail ⟨none, some "ali@outlook.com", none, none, none⟩
    "OpenAI API error" (by decide) (by decide) (by decide) (by decide)
    (by decide)
/-! ### C3: the email-confirmation invariant -/

theorem mergeVal_truthy_left {old new_ : Option String}
    (h : truthy old = true) : truthy (mergeVal old new_) = true := by
  unfold mergeVal
  split
  · assumption
  · exact h

theorem next_prompt_confirm_email_email (st : Sess) (now : PyDT)
    (h : (_next_prompt st now).1 = .confirm_email) :
    truthy st.captured.patient_email = true := by
  obtain ⟨stp, cap, ec, dc⟩ := st
  by_cases hemail : truthy cap.patient_email = true
  · exact hemail
  · exfalso
    simp only [Bool.not_eq_true] at hemail
    cases stp <;>
      simp [_next_prompt, promptReasonTail, hemail] at h <;>
      repeat' split at h <;>
      simp_all

theorem applyFields_emailInv (st : Sess) (f : Slots)
    (h1 : st.email_confirmed = true → truthy st.captured.patient_email = true)
    (h2 : st.step ≠ .confirm_email) :
    ((applyFields st f).email_confirmed = true →
      truthy (applyFields st f).captured.patient_email = true) ∧
    ((applyFields st f).step = .confirm_email →
      truthy (applyFields st f).captured.patient_email = true) := by
  simp only [applyFields]
  split
  next g1 =>
    simp only [Bool.and_eq_true] at g1
    split
    next g2 =>
      constructor
      · intro hc
        exact g1.1
      · intro hc
        simp at hc
    next g2 =>
      constructor
      · intro hc
        simp at hc
      · intro hc
        exact g1.1
  next g1 =>
    split
    next g2 =>
      constructor
      · intro hc
        exact mergeVal_truthy_left (h1 hc)
      · intro hc
        simp at hc
    next g2 =>
      constructor
      · intro hc
        exact mergeVal_truthy_left (h1 hc)
      · intro hc
        exact absurd hc h2

theorem updatePhase_emailInv (st : Sess) (ut : String) (deps : Deps)
    (hI : EmailInv st) : EmailInv (updatePhase st ut deps) := by
  obtain ⟨hI1, hI2⟩ := hI
  obtain ⟨stp, cap, ec, dc⟩ := st
  cases stp
  case confirm_email =>
    simp only [updatePhase]
    split
    next =>
      exact ⟨fun _ => hI2 rfl, fun _ => hI2 rfl⟩
    next =>
      split
      next =>
        exact ⟨fun hc => by simp at hc, fun hc => by simp at hc⟩
      next =>
        exact ⟨fun hc => hI1 hc, fun hc => hI2 hc⟩
  case confirm_datetime =>
    simp only [updatePhase]
    split
    next =>
      exact ⟨fun hc => hI1 hc, fun hc => by simp at hc⟩
    next =>
      split
      next =>
        exact ⟨fun hc => hI1 hc, fun hc => by simp at hc⟩
      next =>
        exact ⟨fun hc => hI1 hc, fun hc => hI2 hc⟩
  all_goals
    cases hx : extract_fields_with_llm ut cap deps with
    | error e =>
      simp only [updatePhase, hx]
      exact ⟨fun hc => hI1 hc, fun hc => hI2 hc⟩
    | ok f =>
      simp only [updatePhase, hx]
      exact applyFields_emailInv ⟨_, cap, ec, dc⟩ f hI1 (by simp)

/-- C3 counterexample: a turn at `ask_date` whose utterance carries a new
email: the merge overwrites `patient_email` (a write during the turn), but
because the step is not `ask_email` the `email_confirmed` flag is left
`true` — refuting "any write to `patient_email` resets `email_confirmed`
to false". -/
theorem c3_counterexample_overwrite_keeps_confirmed :
    sessAskDate.captured.patient_email = some "sam@outlook.com" ∧
    sessAskDate.email_confirmed = true ∧
    (process_turn sessAskDate "it is bob@outlook.com" depsLLMEmpty).sess =
      some { sessAskDate with
               captured := { sessAskDate.captured with
                               patient_email := some "bob@outlook.com" } } :=
  ⟨by decide, by decide, by decide⟩

/-- C3 (amended): `email_confirmed` is true only while `patient_email` is
present — this is an invariant of the fresh session, preserved by init turns
and by every processed turn — but a write to `patient_email` by extraction
resets `email_confirmed` only when the step is `ask_email` (the turn then
moves to `confirm_email`, or to `confirm_datetime` if a datetime change
overrides it); an overwrite at any other step leaves `email_confirmed`
untouched (see the counterexample). -/
theorem c3_email_confirmed_invariant :
    EmailInv freshSess ∧
    (∀ st deps, EmailInv st → EmailInv (init_turn st deps)) ∧
    (∀ st raw deps s', EmailInv st →
      (process_turn st raw deps).sess = some s' → EmailInv s') ∧
    (∀ st ut deps f, st.step = .ask_email →
      extract_fields_with_llm ut st.captured deps = .ok f →
      truthy (mergeSlots st.captured f).patient_email = true →
      (updatePhase st ut deps).email_confirmed = false ∧
      ((updatePhase st ut deps).step = .confirm_email ∨
        (updatePhase st ut deps).step = .confirm_datetime)) := by
  refine ⟨⟨by simp [freshSess], by simp [freshSess]⟩, ?_, ?_, ?_⟩
  · intro st deps hI
    exact ⟨fun h => hI.1 h,
      fun h => next_prompt_confirm_email_email st deps.now h⟩
  · intro st raw deps s' hI hs
    simp only [process_turn] at hs
    split at hs
    next =>
      injection hs with hs
      subst hs
      exact ⟨fun h => hI.1 h,
        fun h => next_prompt_confirm_email_email st deps.now h⟩
    next =>
      split at hs
      next => exact absurd hs (by simp)
      next =>
        injection hs with hs
        subst hs
        have hu := updatePhase_emailInv st (_normalise_text raw) deps hI
        exact ⟨fun h => hu.1 h,
          fun h => next_prompt_confirm_email_email
            (updatePhase st (_normalise_text raw) deps) deps.now h⟩
  · intro st ut deps f hstep hx hm
    obtain ⟨stp, cap, ec, dc⟩ := st
    simp only at hstep
    subst hstep
    simp only [updatePhase, hx, applyFields]
    have g1 : (truthy (mergeSlots cap f).patient_email &&
        (Step.ask_email == Step.ask_email)) = true := by
      simp only at hm
      simp [hm]
    rw [if_pos g1]
    split
    next => exact ⟨rfl, Or.inr rfl⟩
    next => exact ⟨rfl, Or.inl rfl⟩

/-- C3 witness: the invariant parts applied at the fresh session and one
concrete turn of it. -/
theorem c3_email_confirmed_invariant_witness :
    EmailInv freshSess ∧ EmailInv (init_turn freshSess depsLLMEmpty) :=
  ⟨c3_email_confirmed_invariant.1,
    c3_email_confirmed_invariant.2.1 freshSess depsLLMEmpty
      c3_email_confirmed_invariant.1⟩
/-! ### C7 and C8: the booking trigger -/

theorem fromisoformatDT_valid {ds ts : String} {dtv : PyDT}
    (h : fromisoformatDT ds ts = .ok dtv) : validDate dtv = true := by
  unfold fromisoformatDT at h
  split at h
  next =>
    split at h
    · simp only [] at h
      split at h
      next hv =>
        injection h with h
        subst h
        exact hv
      next => exact absurd h (by simp)
    · exact absurd h (by simp)
  next => exact absurd h (by simp)

theorem process_turn_booking (st : Sess) (raw : String) (deps : Deps)
    (hf : (expectingValue st.step && is_filler (_normalise_text raw)) = false)
    (hc : (postPromptStep st (_normalise_text raw) deps).step = .confirm)
    (ha : is_affirmative (_normalise_text raw) = true) :
    process_turn st raw deps =
      { sess := none,
        response := (bookAttempt (postPromptStep st (_normalise_text raw) deps).captured deps).response,
        session_ended := (bookAttempt (postPromptStep st (_normalise_text raw) deps).captured deps).ended,
        calendar_error := (bookAttempt (postPromptStep st (_normalise_text raw) deps).captured deps).calErr,
        calendar_called := (bookAttempt (postPromptStep st (_normalise_text raw) deps).captured deps).payload } := by
  simp only [postPromptStep] at hc ⊢
  simp only [process_turn]
  rw [if_neg (by simp [hf])]
  split
  next hcond => rfl
  next hcond =>
    exfalso
    exact hcond (by simp [hc, ha])

theorem bookAttempt_cases (c : Slots) (deps : Deps) :
    (bookAttempt c deps).ended = false ∨
      ∃ p r, (bookAttempt c deps).payload = some p ∧ deps.cal p = .ok r ∧
        r.status = "success" ∧ (bookAttempt c deps).ended = true := by
  unfold bookAttempt
  split
  · exact Or.inl rfl
  · split
    · exact Or.inl rfl
    next dtv heq =>
      simp only []
      split
      next r hcal =>
        exact Or.inl rfl
      next r hcal =>
        split
        next hsucc =>
          refine Or.inr ⟨_, r, rfl, hcal, ?_, rfl⟩
          simpa [beq_iff_eq] using hsucc
        next hsucc => exact Or.inl rfl

/-- C7: when, after the turn's update and prompt phases, the step is
`confirm` and the utterance is affirmative, the booking requires a present
`appointment_date` — with it absent the calendar collaborator is not invoked
and the session cannot end as booked — and with a date present the
`appointment_time` defaults to `"09:00"` when absent or empty, and the
calendar collaborator is invoked with exactly
`{patient_name, patient_email, reason, start, end}` where `start` is the
parsed date+time and `end` is exactly 30 minutes after `start`. -/
theorem c7_booking_payload (st : Sess) (raw : String) (deps : Deps)
    (hf : (expectingValue st.step && is_filler (_normalise_text raw)) = false)
    (hc : (postPromptStep st (_normalise_text raw) deps).step = .confirm)
    (ha : is_affirmative (_normalise_text raw) = true) :
    (truthy (postPromptStep st (_normalise_text raw) deps).captured.appointment_date = false →
      (process_turn st raw deps).calendar_called = none ∧
      (process_turn st raw deps).session_ended = false) ∧
    (∀ d dtv,
      (postPromptStep st (_normalise_text raw) deps).captured.appointment_date = some d →
      truthy (postPromptStep st (_normalise_text raw) deps).captured.appointment_date = true →
      fromisoformatDT d
          (pyOrStr (postPromptStep st (_normalise_text raw) deps).captured.appointment_time "09:00") =
        .ok dtv →
      (process_turn st raw deps).calendar_called =
        some ⟨(postPromptStep st (_normalise_text raw) deps).captured.patient_name,
              (postPromptStep st (_normalise_text raw) deps).captured.patient_email,
              (postPromptStep st (_normalise_text raw) deps).captured.reason,
              dtv, addMinutes30 dtv⟩ ∧
      toMin (addMinutes30 dtv) = toMin dtv + 30) := by
  rw [process_turn_booking st raw deps hf hc ha]
  constructor
  · intro hd
    unfold bookAttempt
    rw [if_pos (by simp [hd])]
    exact ⟨rfl, rfl⟩
  · intro d dtv hd htr hiso
    constructor
    · unfold bookAttempt
      rw [if_neg (by simp [htr])]
      rw [hd]
      simp only [Option.getD_some]
      simp only [hiso]
      split
      next r hcal => rfl
      next r hcal =>
        split
        next => rfl
        next => rfl
    · exact addMinutes30_toMin (fromisoformatDT_valid hiso)

/-- C7 witness: a full booking at the final `confirm` step with all slots
captured — the collaborator receives start 2026-10-16 14:30 and end 15:00. -/
theorem c7_booking_payload_witness :
    (process_turn sessConfirm "yes please book it" depsLLMEmpty).calendar_called =
      some ⟨some "Sam Smith", some "sam@outlook.com", some "a checkup",
            ⟨2026, 10, 16, 14, 30⟩, addMinutes30 ⟨2026, 10, 16, 14, 30⟩⟩ ∧
    toMin (addMinutes30 ⟨2026, 10, 16, 14, 30⟩) = toMin ⟨2026, 10, 16, 14, 30⟩ + 30 :=
  (c7_booking_payload sessConfirm "yes please book it" depsLLMEmpty
      (by decide) (by decide) (by decide)).2
    "2026-10-16" ⟨2026, 10, 16, 14, 30⟩ (by decide) (by decide) (by decide)

/-- C8: after any booking attempt — calendar success, error status, or
thrown exception, and even a missing date or malformed datetime — the
session is removed from the store, so the same key next gets the brand-new
fresh session; and over all turns the session-ended flag is true only when
the calendar collaborator was actually invoked and returned status
`"success"`. -/
theorem c8_booking_terminal (st : Sess) (raw : String) (deps : Deps) :
    ((expectingValue st.step && is_filler (_normalise_text raw)) = false →
      (postPromptStep st (_normalise_text raw) deps).step = .confirm →
      is_affirmative (_normalise_text raw) = true →
      (process_turn st raw deps).sess = none ∧
      sessionFor (process_turn st raw deps).sess = freshSess) ∧
    ((process_turn st raw deps).session_ended = true →
      ∃ p r, (process_turn st raw deps).calendar_called = some p ∧
        deps.cal p = .ok r ∧ r.status = "success") := by
  constructor
  · intro hf hc ha
    rw [process_turn_booking st raw deps hf hc ha]
    exact ⟨rfl, rfl⟩
  · intro he
    simp only [process_turn] at he ⊢
    split at he
    next hfil => exact absurd he (by simp)
    next hfil =>
      rw [if_neg hfil]
      split at he
      next hcond =>
        rcases bookAttempt_cases
            (updatePhase st (_normalise_text raw) deps).captured
            deps with hend | ⟨p, r, hp, hcal, hst, _⟩
        · rw [hend] at he
          exact absurd he (by simp)
        · rw [if_pos hcond]
          exact ⟨p, r, hp, hcal, hst⟩
      next hcond =>
        exact absurd he (by simp)

/-- C8 witness: the removal conjunct applied at a successful booking turn. -/
theorem c8_booking_terminal_witness :
    (process_turn sessConfirm "yes please book it" depsLLMEmpty).sess = none ∧
    sessionFor (process_turn sessConfirm "yes please book it" depsLLMEmpty).sess =
      freshSess :=
  (c8_booking_terminal sessConfirm "yes please book it" depsLLMEmpty).1
    (by decide) (by decide) (by decide)

end VCA
